import Mathlib

/-!
Verification development for the `textclust.py` stream-clustering engine
(`TextClust` class, `src/river/cluster/textclust.py`).

Embedding conventions:
* Python `dict`s are modelled as insertion-ordered association lists
  (`List (κ × α)`); `alookup` is `d[k]` (first match), `aset` is
  `d[k] = v` (update in place, or append when the key is new), mirroring
  Python 3 dict semantics.
* Python floats are modelled by `ℝ` (exact real arithmetic);
  `math.sqrt` is `Real.sqrt`, `math.log` is `Real.log`,
  `pow(2, x)` is real exponentiation `(2 : ℝ) ^ (x : ℝ)`, and
  `round(x, 10)` is `round10` below.
* Operations that can raise a Python exception (`KeyError` on a missing
  dictionary key, `AttributeError` on `None`) return `Option`/`none`
  at the failure point.
* The term-frequency container `{"tf": v}` is flattened to the bare
  value `v`, since the source only ever stores and reads that one field.
-/

/-- `d[k]` on a Python dict: the value stored at the first (unique) matching
key, `none` when absent. -/
def alookup {κ α : Type} [DecidableEq κ] : List (κ × α) → κ → Option α
  | [], _ => none
  | (k, v) :: rest, key => if k = key then some v else alookup rest key

/-- `d[k] = v` on a Python dict: replaces the value in place when the key is
present, appends a new entry otherwise (Python 3 insertion-order semantics). -/
def aset {κ α : Type} [DecidableEq κ] : List (κ × α) → κ → α → List (κ × α)
  | [], key, v => [(key, v)]
  | (k, w) :: rest, key, v =>
      if k = key then (k, v) :: rest else (k, w) :: aset rest key v

/-- `microcluster` from the source: one summarized topic/segment of the
stream.  Field-for-field transcription of `microcluster.__init__`
(`tf` values are the inner `["tf"]` floats; `id` is `None` for the
transient cluster built by `get_assignment`). -/
structure microcluster where
  id : Option ℕ
  weight : ℝ
  time : ℝ
  tf : List (String × ℝ)
  oldweight : ℝ
  deltaweight : ℝ
  realtime : Option ℝ
  n : ℕ
  merged_ids : List (Option ℕ)

/-- `microcluster.__init__(tf, time, weight, realtime, clusterid)`. -/
noncomputable def microcluster.init (tf : List (String × ℝ)) (time : ℝ) (weight : ℝ)
    (realtime : Option ℝ) (clusterid : Option ℕ) : microcluster :=
  { id := clusterid, weight := weight, time := time, tf := tf,
    oldweight := 0, deltaweight := 0, realtime := realtime, n := 1,
    merged_ids := [] }

/-- The term-fading loop inside `microcluster.fade`: every entry is
multiplied by the decay factor and removed when the decayed value is
`≤ omega`.  (In the source the factor `2^(-fading_factor*(tnow-time))` is
recomputed per term from the still-unchanged `self.time`, so it is one
constant for the whole loop.) -/
noncomputable def fadeTerms (factor omega : ℝ) : List (String × ℝ) → List (String × ℝ)
  | [] => []
  | (k, v) :: rest =>
      if v * factor ≤ omega then fadeTerms factor omega rest
      else (k, v * factor) :: fadeTerms factor omega rest

/-- `microcluster.fade(tnow, omega, fading_factor, term_fading, realtime)`. -/
noncomputable def microcluster.fade (mc : microcluster) (tnow omega fading_factor : ℝ)
    (term_fading : Bool) (realtime : Option ℝ) : microcluster :=
  { mc with
    weight := mc.weight * (2 : ℝ) ^ (-fading_factor * (tnow - mc.time)),
    tf := if term_fading then
            fadeTerms ((2 : ℝ) ^ (-fading_factor * (tnow - mc.time))) omega mc.tf
          else mc.tf,
    time := tnow,
    realtime := realtime }

/-- The term-combination loop at the end of `microcluster.merge`:
`for k in other.tf: self.tf[k] += other.tf[k]` with insertion of fresh
keys at the end. -/
noncomputable def mergeTF : List (String × ℝ) → List (String × ℝ) → List (String × ℝ)
  | self, [] => self
  | self, (k, v) :: rest =>
      mergeTF (aset self k ((alookup self k).getD 0 + v)) rest

/-- `microcluster.merge(other, t, omega, fading_factor, term_fading, realtime)`.
Returns the pair (updated `self`, faded `other`): the source mutates both
objects (it fades `other` in place before reading its terms). -/
noncomputable def microcluster.merge (self other : microcluster) (t omega fading_factor : ℝ)
    (term_fading : Bool) (realtime : Option ℝ) : microcluster × microcluster :=
  let s1 : microcluster :=
    { self with realtime := realtime, weight := self.weight + other.weight }
  let s2 := s1.fade t omega fading_factor term_fading realtime
  let o2 := other.fade t omega fading_factor term_fading realtime
  -- `self.time = t` in the source is already established by the fade above.
  ({ s2 with tf := mergeTF s2.tf o2.tf }, o2)

/-- `round(x, 10)`: rounding to 10 decimal digits, the embedding of the
float-stabilisation step at the end of `tfidf_cosine_distance`. -/
noncomputable def round10 (x : ℝ) : ℝ := ((round (x * 10 ^ 10) : ℤ) : ℝ) / 10 ^ 10

/-- First loop of `distances.tfidf_cosine_distance`: iterates over the keys
of `mc.tf`; a key contributes only when present in `idf`, and contributes
to the dot product only when also present in `microcluster.tf`.
Returns `(sum, tfidflen-before-sqrt)`. -/
noncomputable def distLoopA (idf otherTf : List (String × ℝ)) : List (String × ℝ) → ℝ × ℝ
  | [] => (0, 0)
  | (k, a) :: rest =>
      let acc := distLoopA idf otherTf rest
      match alookup idf k with
      | none => acc
      | some i =>
          match alookup otherTf k with
          | some b => (acc.1 + (a * i) * (b * i), acc.2 + a * i * a * i)
          | none => (acc.1, acc.2 + a * i * a * i)

/-- Second loop of `distances.tfidf_cosine_distance`: iterates over the keys
of `microcluster.tf` and reads `idf[k]` unguarded — a key absent from `idf`
raises `KeyError`, modelled by `none`. -/
noncomputable def distLoopB (idf : List (String × ℝ)) : List (String × ℝ) → Option ℝ
  | [] => some 0
  | (k, b) :: rest =>
      match alookup idf k with
      | none => none
      | some i => (distLoopB idf rest).map (fun acc => acc + b * i * b * i)

/-- `distances.tfidf_cosine_distance(mc, microcluster, idf)`. -/
noncomputable def tfidf_cosine_distance (mc other : microcluster)
    (idf : List (String × ℝ)) : Option ℝ :=
  let fst := distLoopA idf other.tf mc.tf
  let tfidflen := Real.sqrt fst.2
  match distLoopB idf other.tf with
  | none => none
  | some mlen2 =>
      let microtfidflen := Real.sqrt mlen2
      if tfidflen = 0 ∨ microtfidflen = 0 then some 1
      else some (round10 (1 - fst.1 / (tfidflen * microtfidflen)))

/-- The `distances` strategy class: a closed enumeration of supported
metric names (the source dispatches with `getattr` on the stored name;
only `tfidf_cosine_distance` exists, here the constructor `tfidf_cosine`). -/
inductive distances where
  | tfidf_cosine
  deriving DecidableEq

/-- `distances.dist(m1, m2, idf)`. -/
noncomputable def distances.dist : distances → microcluster → microcluster →
    List (String × ℝ) → Option ℝ
  | .tfidf_cosine, m1, m2, idf => tfidf_cosine_distance m1 m2 idf

/-- The `TextClust` engine state: the constructor parameters plus the
mutable instance attributes set up in `TextClust.__init__`.
Notes on the embedding:
* `t` is `None` in the source until the first `learn_one` assigns it; it
  is modelled as an `ℝ` initialised to `0` — every claim below either
  exercises states where `t` has been assigned or paths that never read
  it before assigning it.
* `last_cleanup` is initialised to `0` (never `None`), so the
  `self.last_cleanup is None` half of the cleanup test in `learn_one`
  is dead code and is dropped.
* `realtime` is only ever copied around (it stays `None` unless external
  code assigns it); it is carried as an `Option ℝ`. -/
structure TextClust where
  radius : ℝ
  fading_factor : ℝ
  tgap : ℝ
  term_fading : Bool
  real_time_fading : Bool
  micro_distance : distances
  macro_distance : distances
  num_macro : ℕ
  min_weight : ℝ
  auto_r : Bool
  auto_merge : Bool
  sigma : ℝ
  t : ℝ
  last_cleanup : ℝ
  n : ℕ
  omega : ℝ
  micro_clusters : List (ℕ × microcluster)
  microToMacro : Option (List (ℕ × ℕ))
  realtime : Option ℝ
  clusterId : ℕ
  up_to_date : Bool
  dist_mean : ℝ
  num_merged_obs : ℕ

/-- `TextClust.__init__`. -/
noncomputable def TextClust.init (radius fading_factor tgap : ℝ)
    (term_fading real_time_fading : Bool) (micro_distance macro_distance : distances)
    ( num_macro : ℕ) (min_weight : ℝ) (auto_r auto_merge : Bool) (sigma : ℝ) :
    TextClust :=
  { radius := radius, fading_factor := fading_factor, tgap := tgap,
    term_fading := term_fading, real_time_fading := real_time_fading,
    micro_distance := micro_distance, macro_distance := macro_distance,
    num_macro := num_macro, min_weight := min_weight, auto_r := auto_r,
    auto_merge := auto_merge, sigma := sigma,
    t := 0, last_cleanup := 0, n := 1,
    omega := (2 : ℝ) ^ (-1 * fading_factor * tgap),
    micro_clusters := [], microToMacro := none, realtime := none,
    clusterId := 0, up_to_date := false, dist_mean := 0, num_merged_obs := 0 }

/-- The counting pass of `_calculateIDF`: document frequency of each term
over the clusters seen so far (`result[k] = 1` on first sight, `+= 1`
afterwards, preserving first-insertion order). -/
noncomputable def countKeys : List (String × ℕ) → List String → List (String × ℕ)
  | acc, [] => acc
  | acc, k :: rest => countKeys (aset acc k ((alookup acc k).getD 0 + 1)) rest

/-- `TextClust._calculateIDF(micro_clusters)`: document-frequency count over
all clusters, then `1 + ln(N / df)` per term. -/
noncomputable def calculateIDF (micro_clusters : List microcluster) :
    List (String × ℝ) :=
  let result := micro_clusters.foldl
    (fun acc mc => countKeys acc (mc.tf.map Prod.fst)) []
  result.map (fun p =>
    (p.1, 1 + Real.log ((micro_clusters.length : ℝ) / (p.2 : ℝ))))

/-- Accumulator of the scan loop in `_get_closest_mc` (initial values
`min_dist = 1`, `smallest_key = None`, sums and counter `0`). -/
structure ClosestAcc where
  min_dist : ℝ
  smallest_key : Option ℕ
  sumdist : ℝ
  squaresum : ℝ
  counter : ℕ

/-- The distance scan of `_get_closest_mc` over all live micro-clusters;
`none` models a Python exception escaping from the distance call. -/
noncomputable def closestScan (dm : distances) (mc : microcluster)
    (idf : List (String × ℝ)) :
    List (ℕ × microcluster) → ClosestAcc → Option ClosestAcc
  | [], acc => some acc
  | (key, c) :: rest, acc =>
      match dm.dist mc c idf with
      | none => none
      | some d =>
          let acc1 : ClosestAcc :=
            { acc with counter := acc.counter + 1, sumdist := acc.sumdist + d,
                       squaresum := acc.squaresum + d ^ 2 }
          let acc2 : ClosestAcc :=
            if d < acc.min_dist then
              { acc1 with min_dist := d, smallest_key := some key }
            else acc1
          closestScan dm mc idf rest acc2

/-- `TextClust._get_closest_mc(mc, idf, distance)`: returns
`(clusterId, min_dist)` where `clusterId` is `None` on the create path. -/
noncomputable def get_closest_mc (s : TextClust) (mc : microcluster)
    (idf : List (String × ℝ)) : Option (Option ℕ × ℝ) :=
  match closestScan s.micro_distance mc idf s.micro_clusters
      { min_dist := 1, smallest_key := none, sumdist := 0, squaresum := 0,
        counter := 0 } with
  | none => none
  | some acc =>
      if s.auto_r then
        if 1 < acc.counter then
          let mu := (acc.sumdist - acc.min_dist) / ((acc.counter : ℝ) - 1)
          let threshold := mu - s.sigma *
            Real.sqrt (acc.squaresum / ((acc.counter : ℝ) - 1) - mu ^ 2)
          if acc.min_dist < threshold then some (acc.smallest_key, acc.min_dist)
          else some (none, acc.min_dist)
        else some (none, acc.min_dist)
      else
        if acc.min_dist < s.radius then some (acc.smallest_key, acc.min_dist)
        else some (none, acc.min_dist)

/-- The body of the `if len(ngrams) > 0` block of `learn_one` (the
ingestion decision: merge into the closest cluster or create a new one).
`s.t` has already been set by the caller. -/
noncomputable def learn_core (s : TextClust) (ngrams : List (String × ℝ)) :
    Option (TextClust × Option ℕ) :=
  let mc := microcluster.init ngrams s.t 1 s.realtime (some s.clusterId)
  let idf := calculateIDF (s.micro_clusters.map Prod.snd)
  match get_closest_mc s mc idf with
  | none => none
  | some (some cid, min_dist) =>
      match alookup s.micro_clusters cid with
      | none => none
      | some target =>
          let target1 : microcluster := { target with n := target.n + 1 }
          let merged := (target1.merge mc s.t s.omega s.fading_factor
            s.term_fading s.realtime).1
          some ({ s with
              num_merged_obs := s.num_merged_obs + 1,
              micro_clusters := aset s.micro_clusters cid merged,
              dist_mean := s.dist_mean + min_dist }, some cid)
  | some (none, min_dist) =>
      some ({ s with
          dist_mean := s.dist_mean + min_dist,
          micro_clusters := aset s.micro_clusters s.clusterId mc,
          clusterId := s.clusterId + 1 }, some s.clusterId)

/-- The fading-plus-eviction deletion loop of `_updateweights`: drop every
cluster whose weight is `≤ omega` or whose term vector is empty. -/
noncomputable def evict (omega : ℝ) :
    List (ℕ × microcluster) → List (ℕ × microcluster)
  | [] => []
  | (k, c) :: rest =>
      if c.weight ≤ omega ∨ c.tf = [] then evict omega rest
      else (k, c) :: evict omega rest

/-- `TextClust._updateweights()`: fade every live cluster to `self.t`,
then evict clusters at/below the decay floor or with empty term vectors. -/
noncomputable def updateweights (s : TextClust) : TextClust :=
  { s with micro_clusters :=
      evict s.omega (s.micro_clusters.map (fun p =>
        (p.1, p.2.fade s.t s.omega s.fading_factor s.term_fading s.realtime))) }

/-- The threshold of the pairwise merge pass in `_mergemicroclusters`:
adaptive mode uses `_dist_mean / (_num_merged_obs + 1)`, otherwise the
fixed radius. -/
noncomputable def mergeThreshold (s : TextClust) : ℝ :=
  if s.auto_r then s.dist_mean / ((s.num_merged_obs : ℝ) + 1) else s.radius

/-- Inner `while j` loop of `_mergemicroclusters` for a fixed row cluster
`ci`: scan the clusters after it; on a hit, merge `j` into `ci`, record the
id, delete `j` from the snapshot and keep scanning at the same position
(here: drop the head and recurse), otherwise keep the entry.  The
index-based `del`-and-stay mutation of the source is transcribed as this
structural scan over the suffix. -/
noncomputable def mergeScanInner (dm : distances) (idf : List (String × ℝ))
    (threshold t omega ff : ℝ) (tfad : Bool) (rt : Option ℝ) :
    microcluster → List (ℕ × microcluster) →
    Option (microcluster × List (ℕ × microcluster))
  | ci, [] => some (ci, [])
  | ci, (kj, cj) :: rest =>
      match dm.dist ci cj idf with
      | none => none
      | some d =>
          if d < threshold then
            let m := (ci.merge cj t omega ff tfad rt).1
            mergeScanInner dm idf threshold t omega ff tfad rt
              { m with merged_ids := m.merged_ids ++ [cj.id] } rest
          else
            (mergeScanInner dm idf threshold t omega ff tfad rt ci rest).map
              (fun p => (p.1, (kj, cj) :: p.2))

/-- The inner merge scan never lengthens the remaining-cluster list
(it only keeps or deletes entries); needed for termination of the outer
scan. -/
theorem mergeScanInner_length_le (dm : distances) (idf : List (String × ℝ))
    (threshold t omega ff : ℝ) (tfad : Bool) (rt : Option ℝ) :
    ∀ (l : List (ℕ × microcluster)) (ci : microcluster)
      (p : microcluster × List (ℕ × microcluster)),
      mergeScanInner dm idf threshold t omega ff tfad rt ci l = some p →
      p.2.length ≤ l.length := by
  intro l
  induction l with
  | nil =>
      intro ci p h
      simp only [mergeScanInner, Option.some.injEq] at h
      simp [← h]
  | cons hd rest ih =>
      intro ci p h
      obtain ⟨kj, cj⟩ := hd
      simp only [mergeScanInner] at h
      cases hdist : distances.dist dm ci cj idf with
      | none => simp only [hdist] at h; exact absurd h (by simp)
      | some d =>
          simp only [hdist] at h
          by_cases hlt : d < threshold
          · rw [if_pos hlt] at h
            exact le_trans (ih _ _ h) (by simp)
          · rw [if_neg hlt] at h
            cases hrec : mergeScanInner dm idf threshold t omega ff tfad rt ci rest with
            | none => simp only [hrec] at h; exact absurd h (by simp)
            | some q =>
                simp only [hrec, Option.map_some', Option.some.injEq] at h
                have := ih _ _ hrec
                subst h
                simpa using this

/-- Outer `while i` loop of `_mergemicroclusters`: clusters before the
current index are final; each row cluster absorbs matches among the
clusters after it. -/
noncomputable def mergeScanOuter (dm : distances) (idf : List (String × ℝ))
    (threshold t omega ff : ℝ) (tfad : Bool) (rt : Option ℝ) :
    List (ℕ × microcluster) → Option (List (ℕ × microcluster))
  | [] => some []
  | (ki, ci) :: rest =>
      match h : mergeScanInner dm idf threshold t omega ff tfad rt ci rest with
      | none => none
      | some (ci1, rest1) =>
          (mergeScanOuter dm idf threshold t omega ff tfad rt rest1).map
            (fun l => (ki, ci1) :: l)
termination_by l => l.length
decreasing_by
  have hle : rest1.length ≤ rest.length :=
    mergeScanInner_length_le dm idf threshold t omega ff tfad rt rest _ _ h
  simp only [List.length_cons]
  omega

/-- `TextClust._mergemicroclusters()`: greedy pairwise merge pass with a
single IDF computed at pass start and the §4.6 threshold. -/
noncomputable def mergemicroclusters (s : TextClust) : Option TextClust :=
  let idf := calculateIDF (s.micro_clusters.map Prod.snd)
  (mergeScanOuter s.micro_distance idf (mergeThreshold s) s.t s.omega
      s.fading_factor s.term_fading s.realtime s.micro_clusters).map
    (fun mcs => { s with micro_clusters := mcs })

/-- `TextClust._cleanup()`. -/
noncomputable def cleanup (s : TextClust) : Option TextClust :=
  let s1 : TextClust := { s with last_cleanup := s.t }
  let s2 := updateweights s1
  let s3 : TextClust :=
    { s2 with micro_clusters :=
        s2.micro_clusters.map (fun p => (p.1,
          { p.2 with deltaweight := p.2.weight - p.2.oldweight,
                     oldweight := p.2.weight })) }
  let s4 := if s3.auto_merge then mergemicroclusters s3 else some s3
  s4.map (fun s5 => { s5 with dist_mean := 0, num_merged_obs := 0 })

/-- `TextClust.learn_one(x, t)`.  The timestamp is taken as a plain real:
with `real_time_fading` the caller must supply one (passing Python `None`
there crashes downstream in the source and is not modelled). -/
noncomputable def learn_one (s0 : TextClust) (x : List (String × ℝ)) (t : ℝ) :
    Option (TextClust × Option ℕ) :=
  let s : TextClust :=
    { s0 with
      up_to_date := false,
      t := if s0.real_time_fading then t else (s0.n : ℝ) }
  let core := match x with
    | [] => some (s, none)
    | _ :: _ => learn_core s x
  match core with
  | none => none
  | some (s1, cid) =>
      match (if s1.t - s1.last_cleanup ≥ s1.tgap then cleanup s1 else some s1) with
      | none => none
      | some s2 => some ({ s2 with n := s2.n + 1 }, cid)

/-- One row of `_get_distance_matrix`: distances from cluster `row` to all
clusters after it (`ids[idx + 1:]`), as `((row, col), dist)` entries. -/
noncomputable def matrixRow (dm : distances) (idf : List (String × ℝ))
    (ki : ℕ) (ci : microcluster) :
    List (ℕ × microcluster) → Option (List ((ℕ × ℕ) × ℝ))
  | [] => some []
  | (kj, cj) :: rest =>
      match dm.dist ci cj idf with
      | none => none
      | some d => (matrixRow dm idf ki ci rest).map
          (fun l => ((ki, kj), d) :: l)

/-- All strictly-upper-triangle entries of `_get_distance_matrix` over the
given clusters (the source then mirrors each entry). -/
noncomputable def matrixPairs (dm : distances) (idf : List (String × ℝ)) :
    List (ℕ × microcluster) → Option (List ((ℕ × ℕ) × ℝ))
  | [] => some []
  | (ki, ci) :: rest =>
      match matrixRow dm idf ki ci rest with
      | none => none
      | some row => (matrixPairs dm idf rest).map (fun l => row ++ l)

/-- Reading `distances.loc[i, j]` from the mirrored `DataFrame`: `0` on the
diagonal (and for never-written entries, matching the zero-initialised
frame), otherwise the stored upper-triangle value in either orientation. -/
noncomputable def matLookup (pairs : List ((ℕ × ℕ) × ℝ)) (i j : ℕ) : ℝ :=
  if i = j then 0
  else match alookup pairs (i, j) with
       | some d => d
       | none => (alookup pairs (j, i)).getD 0

/-- `TextClust._get_distance_matrix(clusters)`: IDF over the given clusters,
then the symmetric pairwise macro-distance matrix as a lookup table. -/
noncomputable def get_distance_matrix (s : TextClust)
    (clusters : List (ℕ × microcluster)) : Option (List ((ℕ × ℕ) × ℝ)) :=
  let idf := calculateIDF (clusters.map Prod.snd)
  matrixPairs s.macro_distance idf clusters

/-- All `(distm[c_i][c_j], i, j)` candidates scanned by one round of
`_agglomerative_clustering`, in the source's scan order
(`i` ascending, `j > i` ascending, then members in group order). -/
noncomputable def allQuads (d : ℕ → ℕ → ℝ) (groups : List (List ℕ)) :
    List (ℝ × ℕ × ℕ) :=
  (List.range groups.length).flatMap (fun i =>
    (List.range groups.length).flatMap (fun j =>
      if i < j then
        (groups.getD i []).flatMap (fun ci =>
          (groups.getD j []).map (fun cj => (d ci cj, i, j)))
      else []))

/-- The running-minimum fold of the scan: starts at `min_dist = inf`
(`none`), replaces the best candidate only on a strictly smaller distance,
so the first pair attaining the minimum wins. -/
noncomputable def scanMin : List (ℝ × ℕ × ℕ) → Option (ℝ × ℕ × ℕ) →
    Option (ℝ × ℕ × ℕ)
  | [], acc => acc
  | (dv, i, j) :: rest, acc =>
      match acc with
      | none => scanMin rest (some (dv, i, j))
      | some (bd, bi, bj) =>
          if dv < bd then scanMin rest (some (dv, i, j))
          else scanMin rest (some (bd, bi, bj))

/-- `clusters[min_pair[0]] += clusters[min_pair[1]]; del clusters[min_pair[1]]`. -/
def mergeGroups (groups : List (List ℕ)) (i j : ℕ) : List (List ℕ) :=
  (groups.set i ((groups.getD i []) ++ (groups.getD j []))).eraseIdx j

/-- The `while len(clusters) != k` loop of `_agglomerative_clustering`.
`none` models the source's crash when no pair exists while the group count
still differs from `k` (its `min_pair` stays `()` and indexing it raises);
the unreachable guard `j < groups.length` is needed for termination. -/
noncomputable def agglomLoop (d : ℕ → ℕ → ℝ) (k : ℕ) (groups : List (List ℕ)) :
    Option (List (List ℕ)) :=
  if groups.length = k then some groups
  else
    match scanMin (allQuads d groups) none with
    | none => none
    | some (_, i, j) =>
        if h : j < groups.length ∧ i < j then
          agglomLoop d k (mergeGroups groups i j)
        else none
termination_by groups.length
decreasing_by
  obtain ⟨hj, hij⟩ := h
  simp only [mergeGroups, List.length_eraseIdx, List.length_set, if_pos hj]
  omega

/-- `TextClust._agglomerative_clustering(micros, k)`: distance matrix over
the provided micro-clusters, then greedy single-linkage merging starting
from singleton groups of the cluster ids. -/
noncomputable def agglomerative_clustering (s : TextClust)
    (micros : List (ℕ × microcluster)) (k : ℕ) : Option (List (List ℕ)) :=
  match get_distance_matrix s micros with
  | none => none
  | some pairs => agglomLoop (matLookup pairs) k (micros.map (fun p => [p.1]))

/-- The weight filter of `updateMacroClusters`: keep clusters with
`weight > min_weight`. -/
noncomputable def filterWeight (minw : ℝ) :
    List (ℕ × microcluster) → List (ℕ × microcluster)
  | [] => []
  | (k, c) :: rest =>
      if minw < c.weight then (k, c) :: filterWeight minw rest
      else filterWeight minw rest

/-- The micro-to-macro assignment dictionary built from the clustering
result (`microToMacro[x] = i` for every member `x` of group `i`). -/
def buildMicroToMacro : List (List ℕ) → ℕ → List (ℕ × ℕ)
  | [], _ => []
  | g :: rest, i => g.map (fun x => (x, i)) ++ buildMicroToMacro rest (i + 1)

/-- `TextClust.updateMacroClusters()`: lazy rebuild of the micro-to-macro
assignment.  When at most one cluster passes the weight filter, nothing is
rebuilt (and `_up_to_date` stays `False`), exactly as in the source. -/
noncomputable def updateMacroClusters (s : TextClust) : Option TextClust :=
  if s.up_to_date then some s
  else
    let s1 := updateweights s
    let micros := filterWeight s1.min_weight s1.micro_clusters
    let numClusters := min s1.num_macro micros.length
    if 1 < micros.length then
      match agglomerative_clustering s1 micros numClusters with
      | none => none
      | some assigned =>
          some { s1 with microToMacro := some (buildMicroToMacro assigned 0),
                         up_to_date := true }
    else some s1

/-- The macro-materialisation loop of `get_macroclusters`: merge every
micro-cluster into the accumulator of its assigned macro index, recording
its id.  `none` models the `KeyError` when the (possibly stale) assignment
references a missing store cluster or macro index.  The store clusters are
faded in place by `merge`, so the updated store is threaded through. -/
noncomputable def macroMergeLoop (t omega ff : ℝ) (tfad : Bool) (rt : Option ℝ) :
    List (ℕ × ℕ) → List (ℕ × microcluster) → List (ℕ × microcluster) →
    Option (List (ℕ × microcluster) × List (ℕ × microcluster))
  | [], macros, store => some (macros, store)
  | (key, value) :: rest, macros, store =>
      match alookup store key, alookup macros value with
      | some mc, some mac =>
          let p := mac.merge mc t omega ff tfad rt
          let mac1 : microcluster :=
            { p.1 with merged_ids := p.1.merged_ids ++ [mc.id] }
          macroMergeLoop t omega ff tfad rt rest
            (aset macros value mac1) (aset store key p.2)
      | _, _ => none

/-- `TextClust.get_macroclusters()`: rebuilds the macro assignment if stale,
then materialises one aggregate cluster per macro index.  On a state whose
`microToMacro` is still `None` (fresh engine, or never rebuilt because
fewer than two clusters qualified) the source raises `AttributeError` on
`None.items()`: modelled as `none`. -/
noncomputable def get_macroclusters (s : TextClust) :
    Option (TextClust × List (ℕ × microcluster)) :=
  match updateMacroClusters s with
  | none => none
  | some s1 =>
      let numClusters := min s1.num_macro s1.micro_clusters.length
      let macros := (List.range numClusters).map
        (fun x => (x, microcluster.init [] s1.t 0 s1.realtime (some x)))
      match s1.microToMacro with
      | none => none
      | some m2m =>
          match macroMergeLoop s1.t s1.omega s1.fading_factor s1.term_fading
              s1.realtime m2m macros s1.micro_clusters with
          | none => none
          | some (macros1, store1) =>
              some ({ s1 with micro_clusters := store1 }, macros1)

/-- The `type` argument of `predict_one` / `get_assignment`. -/
inductive Level where
  | micro
  | macro_level
  deriving DecidableEq

/-- The nearest-qualifying-cluster scan of `get_assignment`: only clusters
with `weight > min_weight` are compared; the running minimum starts at
infinity (`none`) and is replaced only on strictly smaller distance. -/
noncomputable def assignScan (dm : distances) (minw : ℝ) (mc : microcluster)
    (idf : List (String × ℝ)) :
    List (ℕ × microcluster) → Option ℝ × Option ℕ →
    Option (Option ℝ × Option ℕ)
  | [], acc => some acc
  | (key, c) :: rest, acc =>
      if minw < c.weight then
        match dm.dist mc c idf with
        | none => none
        | some cur =>
            match acc.1 with
            | none => assignScan dm minw mc idf rest (some cur, some key)
            | some dv =>
                if cur < dv then assignScan dm minw mc idf rest (some cur, some key)
                else assignScan dm minw mc idf rest acc
      else assignScan dm minw mc idf rest acc

/-- The closest-cluster computation of `get_assignment` on the
already-faded state `s1`: transient cluster of weight 1 at time 1, IDF over
the live clusters, then the scan above.  Returns the nearest qualifying
key (`None` when no cluster qualifies). -/
noncomputable def assignClosest (s1 : TextClust) (x : List (String × ℝ)) :
    Option (Option ℝ × Option ℕ) :=
  assignScan s1.micro_distance s1.min_weight
    (microcluster.init x 1 1 s1.realtime none)
    (calculateIDF (s1.micro_clusters.map Prod.snd))
    s1.micro_clusters (none, none)

/-- `TextClust.get_assignment(x, type)`.  Note the macro branch: the source
returns `self.microToMacro[assignment] if assignment else None`, so a
nearest cluster with the (falsy) id `0` yields `None`; only for a truthy
id is `microToMacro` consulted (raising `TypeError`/`KeyError` — `none`
here — when it is `None` or lacks the key). -/
noncomputable def get_assignment (s : TextClust) (x : List (String × ℝ))
    (level : Level) : Option (TextClust × Option ℕ) :=
  let s1 := updateweights s
  match x with
  | [] => some (s1, none)
  | _ :: _ =>
      match assignClosest s1 x with
      | none => none
      | some (_, closest) =>
          match level with
          | .micro => some (s1, closest)
          | .macro_level =>
              match updateMacroClusters s1 with
              | none => none
              | some s2 =>
                  match closest with
                  | none => some (s2, none)
                  | some i =>
                      if i = 0 then some (s2, none)
                      else
                        match s2.microToMacro with
                        | none => none
                        | some m2m =>
                            match alookup m2m i with
                            | none => none
                            | some mi => some (s2, some mi)

/-- `TextClust.predict_one(x, type)`: converts the input to the internal
term-weight shape (identity here) and delegates to `get_assignment`. -/
noncomputable def predict_one (s : TextClust) (x : List (String × ℝ))
    (level : Level) : Option (TextClust × Option ℕ) :=
  get_assignment s x level

/-- The weighted value `(alookup l k).getD 0` of a term key: the lookup
convention used throughout the distance lemmas (0 for absent keys). -/
noncomputable def lookv (l : List (String × ℝ)) (k : String) : ℝ :=
  (alookup l k).getD 0

/-! ## Helper lemmas -/

theorem alookup_isSome {κ α : Type} [DecidableEq κ] (l : List (κ × α)) (k : κ) :
    (alookup l k).isSome ↔ k ∈ l.map Prod.fst := by
  induction l with
  | nil => simp [alookup]
  | cons hd rest ih =>
      obtain ⟨k1, v1⟩ := hd
      by_cases h : k1 = k
      · subst h; simp [alookup]
      · simp only [alookup, if_neg h, List.map_cons, List.mem_cons, ih]
        constructor
        · exact Or.inr
        · rintro (h1 | h1)
          · exact absurd h1.symm h
          · exact h1

theorem aset_mem_keys {κ α : Type} [DecidableEq κ] (l : List (κ × α))
    (key k : κ) (v : α) :
    k ∈ (aset l key v).map Prod.fst ↔ k ∈ l.map Prod.fst ∨ k = key := by
  induction l with
  | nil => simp [aset]
  | cons hd rest ih =>
      obtain ⟨k1, v1⟩ := hd
      simp only [aset]
      split
      next h => subst h; simp only [List.map_cons, List.mem_cons]; tauto
      next h => simp only [List.map_cons, List.mem_cons, ih]; tauto

theorem countKeys_mem (k : String) :
    ∀ (ks : List String) (acc : List (String × ℕ)),
      (k ∈ acc.map Prod.fst ∨ k ∈ ks) →
      k ∈ (countKeys acc ks).map Prod.fst := by
  intro ks
  induction ks with
  | nil =>
      intro acc h
      simpa [countKeys] using h.resolve_right (by simp)
  | cons k1 rest ih =>
      intro acc h
      show k ∈ (countKeys (aset acc k1 ((alookup acc k1).getD 0 + 1)) rest).map Prod.fst
      apply ih
      rcases h with h | h
      · exact Or.inl ((aset_mem_keys ..).mpr (Or.inl h))
      · rcases List.mem_cons.mp h with h | h
        · exact Or.inl ((aset_mem_keys ..).mpr (Or.inr h))
        · exact Or.inr h

theorem calculateIDF_covers (clusters : List microcluster) (c : microcluster)
    (hc : c ∈ clusters) (k : String) (hk : k ∈ c.tf.map Prod.fst) :
    (alookup (calculateIDF clusters) k).isSome := by
  rw [alookup_isSome]
  have hfold : ∀ (cl : List microcluster) (acc : List (String × ℕ)),
      (k ∈ acc.map Prod.fst ∨ ∃ c0 ∈ cl, k ∈ c0.tf.map Prod.fst) →
      k ∈ (cl.foldl (fun acc mc => countKeys acc (mc.tf.map Prod.fst)) acc).map
        Prod.fst := by
    intro cl
    induction cl with
    | nil =>
        intro acc h
        simpa using h.resolve_right (by simp)
    | cons c0 rest ih =>
        intro acc h
        rw [List.foldl_cons]
        apply ih
        rcases h with h | ⟨c1, hc1, hk1⟩
        · exact Or.inl (countKeys_mem _ _ _ (Or.inl h))
        · rcases List.mem_cons.mp hc1 with rfl | hc1
          · exact Or.inl (countKeys_mem _ _ _ (Or.inr hk1))
          · exact Or.inr ⟨c1, hc1, hk1⟩
  have hmem := hfold clusters [] (Or.inr ⟨c, hc, hk⟩)
  simpa [calculateIDF, List.map_map, Function.comp_def] using hmem

theorem distLoopB_total (idf : List (String × ℝ)) :
    ∀ tf : List (String × ℝ), (∀ p ∈ tf, (alookup idf p.1).isSome) →
      ∃ r, distLoopB idf tf = some r := by
  intro tf
  induction tf with
  | nil => intro _; exact ⟨0, rfl⟩
  | cons hd rest ih =>
      intro h
      obtain ⟨k, b⟩ := hd
      obtain ⟨i, hi⟩ := Option.isSome_iff_exists.mp (h (k, b) (by simp))
      obtain ⟨r, hr⟩ := ih (fun p hp => h p (by simp [hp]))
      exact ⟨r + b * i * b * i, by simp [distLoopB, hi, hr]⟩

theorem tfidf_total (mc other : microcluster) (idf : List (String × ℝ))
    (h : ∀ p ∈ other.tf, (alookup idf p.1).isSome) :
    ∃ d, tfidf_cosine_distance mc other idf = some d := by
  obtain ⟨r, hr⟩ := distLoopB_total idf other.tf h
  simp only [tfidf_cosine_distance, hr]
  by_cases hc : Real.sqrt (distLoopA idf other.tf mc.tf).2 = 0 ∨ Real.sqrt r = 0
  · exact ⟨1, by rw [if_pos hc]⟩
  · exact ⟨_, by rw [if_neg hc]⟩

/-! ## Claim C8 -/

/-- Claim C8: for any micro-cluster and times `now1 < now2` at or after the
cluster's last update, fading to `now1` and then to `now2` gives the same
weight as fading directly to `now2` (exponential decay composes:
`2^(-λ(n1-t0)) * 2^(-λ(n2-n1)) = 2^(-λ(n2-t0))`). -/
theorem fade_weight_compose (mc : microcluster)
    (now1 now2 omega fading_factor : ℝ) (term_fading : Bool)
    (rt1 rt2 : Option ℝ) (h1 : mc.time ≤ now1) (h2 : now1 < now2) :
    ((mc.fade now1 omega fading_factor term_fading rt1).fade now2 omega
        fading_factor term_fading rt2).weight
      = (mc.fade now2 omega fading_factor term_fading rt2).weight := by
  simp only [microcluster.fade]
  rw [mul_assoc, ← Real.rpow_add (by norm_num : (0:ℝ) < 2)]
  have hexp : -fading_factor * (now1 - mc.time) +
      -fading_factor * (now2 - now1) = -fading_factor * (now2 - mc.time) := by
    ring
  rw [hexp]

/-- Witness for C8 at a concrete cluster and times. -/
theorem fade_weight_compose_witness :
    (microcluster.init [] 0 1 none none).time ≤ 1 ∧ (1 : ℝ) < 2 ∧
    (((microcluster.init [] 0 1 none none).fade 1 (1/2) 1 false none).fade 2
        (1/2) 1 false none).weight
      = ((microcluster.init [] 0 1 none none).fade 2 (1/2) 1 false none).weight :=
  ⟨by norm_num [microcluster.init], by norm_num,
    fade_weight_compose (microcluster.init [] 0 1 none none) 1 2 (1/2) 1 false
      none none (by norm_num [microcluster.init]) (by norm_num)⟩

/-! ## Claim C5 -/

/-- Claim C5 counterexample: the TF-IDF distance computation is *not* total
when the second vector holds a term absent from the idf mapping — the
second norm loop reads `idf[k]` unguarded and raises `KeyError` (modelled
as `none`). -/
theorem tfidf_missing_idf_key_crash :
    tfidf_cosine_distance (microcluster.init [("a", 1)] 0 1 none none)
      (microcluster.init [("b", 1)] 0 1 none none) [("a", 1)] = none := by
  simp [tfidf_cosine_distance, distLoopB, microcluster.init, alookup]

/-- Claim C5 (amended): the TF-IDF distance computation returns a number for
every pair of term-weight vectors and every idf mapping that has an entry
for each term of the *second* vector (terms of the first vector may be
missing from the idf map — they are guarded). -/
theorem tfidf_total_of_idf_covers (mc other : microcluster)
    (idf : List (String × ℝ))
    (h : ∀ p ∈ other.tf, (alookup idf p.1).isSome) :
    ∃ d, tfidf_cosine_distance mc other idf = some d :=
  tfidf_total mc other idf h

/-- Witness for the amended C5 at concrete vectors. -/
theorem tfidf_total_of_idf_covers_witness :
    (∀ p ∈ (microcluster.init [("b", 2)] 0 1 none none).tf,
        (alookup [("a", (1:ℝ)), ("b", 3)] p.1).isSome) ∧
    ∃ d, tfidf_cosine_distance (microcluster.init [("a", 1)] 0 1 none none)
      (microcluster.init [("b", 2)] 0 1 none none) [("a", 1), ("b", 3)] = some d :=
  ⟨by intro p hp; simp [microcluster.init] at hp; subst hp; simp [alookup],
    tfidf_total_of_idf_covers (microcluster.init [("a", 1)] 0 1 none none)
      (microcluster.init [("b", 2)] 0 1 none none) [("a", 1), ("b", 3)]
      (by intro p hp; simp [microcluster.init] at hp; subst hp; simp [alookup])⟩

/-! ## Claim C3 -/

/-- Claim C3 (code bug): on a fresh engine (no micro-cluster qualifies, so
fewer than two), `get_macroclusters` does not return an empty macro map —
`microToMacro` is still `None` and iterating it raises `AttributeError`
(modelled as `none`). -/
theorem get_macroclusters_fresh_crash :
    get_macroclusters (TextClust.init 0.3 0.0005 100 true true
      distances.tfidf_cosine distances.tfidf_cosine 3 0 false true 1) = none := by
  simp [get_macroclusters, updateMacroClusters, updateweights, evict,
    filterWeight, TextClust.init]

theorem assignScan_total (dm : distances) (minw : ℝ) (mc : microcluster)
    (idf : List (String × ℝ)) :
    ∀ (l : List (ℕ × microcluster)) (acc : Option ℝ × Option ℕ),
      (∀ kc ∈ l, ∀ p ∈ (Prod.snd kc).tf, (alookup idf p.1).isSome) →
      ∃ r, assignScan dm minw mc idf l acc = some r := by
  intro l
  induction l with
  | nil => intro acc _; exact ⟨acc, rfl⟩
  | cons hd rest ih =>
      intro acc h
      obtain ⟨key, c⟩ := hd
      obtain ⟨a1, a2⟩ := acc
      have hrest := fun kc hkc => h kc (List.mem_cons_of_mem _ hkc)
      by_cases hw : minw < c.weight
      · cases dm
        obtain ⟨d, hd2⟩ := tfidf_total mc c idf
          (fun p hp => h (key, c) (List.mem_cons_self ..) p hp)
        have hdist : distances.dist distances.tfidf_cosine mc c idf = some d := hd2
        cases a1 with
        | none =>
            obtain ⟨r, hr⟩ := ih (some d, some key) hrest
            exact ⟨r, by simp only [assignScan, if_pos hw, hdist, hr]⟩
        | some dv =>
            by_cases hc : d < dv
            · obtain ⟨r, hr⟩ := ih (some d, some key) hrest
              exact ⟨r, by simp only [assignScan, if_pos hw, hdist, if_pos hc, hr]⟩
            · obtain ⟨r, hr⟩ := ih (some dv, a2) hrest
              exact ⟨r, by simp only [assignScan, if_pos hw, hdist, if_neg hc, hr]⟩
      · obtain ⟨r, hr⟩ := ih (a1, a2) hrest
        exact ⟨r, by simp only [assignScan, if_neg hw, hr]⟩

/-- Eviction only removes entries: the surviving key list is a subset. -/
theorem evict_keys_subset (omega : ℝ) :
    ∀ l : List (ℕ × microcluster),
      (evict omega l).map Prod.fst ⊆ l.map Prod.fst := by
  intro l
  induction l with
  | nil => simp [evict]
  | cons hd rest ih =>
      obtain ⟨k, c⟩ := hd
      simp only [evict]
      split
      · exact fun a ha => List.mem_cons_of_mem _ (ih ha)
      · intro a ha
        rcases List.mem_cons.mp ha with rfl | ha
        · exact List.mem_cons_self ..
        · exact List.mem_cons_of_mem _ (ih ha)

/-! ## Claim C2 -/

/-- Claim C2 (amended): the assignment query always returns, and its whole
state effect is exactly `_updateweights`: it fades every live cluster to
the current clock *and evicts* those whose weight falls to/below the decay
floor or whose term vector empties — the same eviction rule as maintenance.
Hence the surviving id set is a subset of (not always equal to) the
original one. -/
theorem get_assignment_fades_and_evicts (s : TextClust)
    (x : List (String × ℝ)) :
    (∃ r, get_assignment s x Level.micro = some (updateweights s, r)) ∧
    (updateweights s).micro_clusters.map Prod.fst ⊆
      s.micro_clusters.map Prod.fst := by
  constructor
  · cases x with
    | nil => exact ⟨none, rfl⟩
    | cons hd tl =>
        have hcov : ∀ kc ∈ (updateweights s).micro_clusters,
            ∀ p ∈ (Prod.snd kc).tf,
            (alookup (calculateIDF
              ((updateweights s).micro_clusters.map Prod.snd)) p.1).isSome := by
          intro kc hkc p hp
          exact calculateIDF_covers _ kc.2 (List.mem_map_of_mem _ hkc) p.1
            (List.mem_map_of_mem _ hp)
        obtain ⟨⟨dv, closest⟩, hscan⟩ := assignScan_total
          (updateweights s).micro_distance (updateweights s).min_weight
          (microcluster.init (hd :: tl) 1 1 (updateweights s).realtime none)
          (calculateIDF ((updateweights s).micro_clusters.map Prod.snd))
          (updateweights s).micro_clusters (none, none) hcov
        exact ⟨closest, by simp only [get_assignment, assignClosest, hscan]⟩
  · have hkeys : (s.micro_clusters.map (fun p =>
        (p.1, p.2.fade s.t s.omega s.fading_factor s.term_fading
          s.realtime))).map Prod.fst = s.micro_clusters.map Prod.fst := by
      simp [List.map_map, Function.comp_def]
    intro a ha
    simp only [updateweights] at ha
    have := evict_keys_subset s.omega _ ha
    rwa [hkeys] at this

/-- Claim C2 counterexample: the query does evict.  With `fading_factor = 0`
the decay floor is `2^0 = 1`, so the weight-1 cluster `0` is at the floor
and the assignment query deletes it: the id set shrinks from `[0]` to `[]`. -/
theorem get_assignment_evicts_concrete :
    ({ TextClust.init 0.3 0 100 true false distances.tfidf_cosine
        distances.tfidf_cosine 3 0 false true 1 with
       micro_clusters := [(0, microcluster.init [("a", 1)] 0 1 none (some 0))],
       clusterId := 1 } : TextClust).micro_clusters.map Prod.fst = [0] ∧
    (updateweights { TextClust.init 0.3 0 100 true false distances.tfidf_cosine
        distances.tfidf_cosine 3 0 false true 1 with
       micro_clusters := [(0, microcluster.init [("a", 1)] 0 1 none (some 0))],
       clusterId := 1 }).micro_clusters = [] ∧
    get_assignment { TextClust.init 0.3 0 100 true false distances.tfidf_cosine
        distances.tfidf_cosine 3 0 false true 1 with
       micro_clusters := [(0, microcluster.init [("a", 1)] 0 1 none (some 0))],
       clusterId := 1 } [("a", 1)] Level.micro
      = some (updateweights { TextClust.init 0.3 0 100 true false
          distances.tfidf_cosine distances.tfidf_cosine 3 0 false true 1 with
        micro_clusters := [(0, microcluster.init [("a", 1)] 0 1 none (some 0))],
        clusterId := 1 }, none) := by
  refine ⟨by simp, ?_, ?_⟩
  · norm_num [updateweights, evict, microcluster.fade, fadeTerms,
      microcluster.init, TextClust.init, Real.rpow_zero]
  · norm_num [get_assignment, assignClosest, assignScan, updateweights, evict,
      microcluster.fade, fadeTerms, microcluster.init, TextClust.init,
      Real.rpow_zero, calculateIDF, countKeys]

theorem closestScan_spec (dm : distances) (mc : microcluster)
    (idf : List (String × ℝ)) :
    ∀ (l : List (ℕ × microcluster)) (acc : ClosestAcc),
      (∀ kc ∈ l, ∀ p ∈ (Prod.snd kc).tf, (alookup idf p.1).isSome) →
      ∃ acc2, closestScan dm mc idf l acc = some acc2 ∧
        acc2.counter = acc.counter + l.length ∧
        (acc2.smallest_key = acc.smallest_key ∨
          ∃ k ∈ l.map Prod.fst, acc2.smallest_key = some k) := by
  intro l
  induction l with
  | nil => intro acc _; exact ⟨acc, rfl, by simp, Or.inl rfl⟩
  | cons hd rest ih =>
      intro acc h
      obtain ⟨key, c⟩ := hd
      have hrest := fun kc hkc => h kc (List.mem_cons_of_mem _ hkc)
      cases dm
      obtain ⟨d, hd2⟩ := tfidf_total mc c idf
        (fun p hp => h (key, c) (List.mem_cons_self ..) p hp)
      have hdist : distances.dist distances.tfidf_cosine mc c idf = some d := hd2
      by_cases hlt : d < acc.min_dist
      · obtain ⟨acc2, hs, hcnt, hkey⟩ := ih
          ⟨d, some key, acc.sumdist + d, acc.squaresum + d ^ 2, acc.counter + 1⟩ hrest
        refine ⟨acc2, ?_, ?_, ?_⟩
        · simpa only [closestScan, hdist, if_pos hlt] using hs
        · simp only [hcnt]; simp; omega
        · rcases hkey with hkey | ⟨k, hk, hkey⟩
          · exact Or.inr ⟨key, by simp, by simpa using hkey⟩
          · exact Or.inr ⟨k, by simp [hk], hkey⟩
      · obtain ⟨acc2, hs, hcnt, hkey⟩ := ih
          ⟨acc.min_dist, acc.smallest_key, acc.sumdist + d,
            acc.squaresum + d ^ 2, acc.counter + 1⟩ hrest
        refine ⟨acc2, ?_, ?_, ?_⟩
        · simpa only [closestScan, hdist, if_neg hlt] using hs
        · simp only [hcnt]; simp; omega
        · rcases hkey with hkey | ⟨k, hk, hkey⟩
          · exact Or.inl (by simpa using hkey)
          · exact Or.inr ⟨k, by simp [hk], hkey⟩

/-! ## Claim C7 -/

/-- Claim C7: under adaptive thresholding, when fewer than two existing
micro-clusters are available for comparison, the ingestion decision always
takes the create path: `_get_closest_mc` returns no merge target and
`learn_core` appends a fresh cluster under the next id, whatever the
distances were. -/
theorem adaptive_few_candidates_creates (s : TextClust)
    (x : List (String × ℝ)) (hr : s.auto_r = true)
    (hlen : s.micro_clusters.length ≤ 1) :
    ∃ md, get_closest_mc s
        (microcluster.init x s.t 1 s.realtime (some s.clusterId))
        (calculateIDF (s.micro_clusters.map Prod.snd)) = some (none, md) ∧
      learn_core s x = some ({ s with
          dist_mean := s.dist_mean + md,
          micro_clusters := aset s.micro_clusters s.clusterId
            (microcluster.init x s.t 1 s.realtime (some s.clusterId)),
          clusterId := s.clusterId + 1 }, some s.clusterId) := by
  have hcov : ∀ kc ∈ s.micro_clusters, ∀ p ∈ (Prod.snd kc).tf,
      (alookup (calculateIDF (s.micro_clusters.map Prod.snd)) p.1).isSome := by
    intro kc hkc p hp
    exact calculateIDF_covers _ kc.2 (List.mem_map_of_mem _ hkc) p.1
      (List.mem_map_of_mem _ hp)
  obtain ⟨acc2, hs, hcnt, -⟩ := closestScan_spec s.micro_distance
    (microcluster.init x s.t 1 s.realtime (some s.clusterId))
    (calculateIDF (s.micro_clusters.map Prod.snd)) s.micro_clusters
    { min_dist := 1, smallest_key := none, sumdist := 0, squaresum := 0,
      counter := 0 } hcov
  have hcnt3 : acc2.counter = s.micro_clusters.length := by simpa using hcnt
  have hcnt2 : ¬ 1 < acc2.counter := by omega
  have hclosest : get_closest_mc s
      (microcluster.init x s.t 1 s.realtime (some s.clusterId))
      (calculateIDF (s.micro_clusters.map Prod.snd))
      = some (none, acc2.min_dist) := by
    simp only [get_closest_mc, hs, hr, if_true, if_neg hcnt2]
  exact ⟨acc2.min_dist, hclosest, by simp only [learn_core, hclosest]⟩

/-- Witness for C7: a fresh adaptive engine (zero candidate clusters)
creates cluster 0 on the first ingestion. -/
theorem adaptive_few_candidates_creates_witness :
    (TextClust.init 0.3 0.0005 100 true false distances.tfidf_cosine
        distances.tfidf_cosine 3 0 true true 1).auto_r = true ∧
    (TextClust.init 0.3 0.0005 100 true false distances.tfidf_cosine
        distances.tfidf_cosine 3 0 true true 1).micro_clusters.length ≤ 1 ∧
    ∃ md, get_closest_mc (TextClust.init 0.3 0.0005 100 true false
        distances.tfidf_cosine distances.tfidf_cosine 3 0 true true 1)
        (microcluster.init [("a", 1)]
          (TextClust.init 0.3 0.0005 100 true false distances.tfidf_cosine
            distances.tfidf_cosine 3 0 true true 1).t 1 none (some 0))
        (calculateIDF ((TextClust.init 0.3 0.0005 100 true false
          distances.tfidf_cosine distances.tfidf_cosine 3 0 true true
          1).micro_clusters.map Prod.snd)) = some (none, md) ∧
      learn_core (TextClust.init 0.3 0.0005 100 true false
        distances.tfidf_cosine distances.tfidf_cosine 3 0 true true 1)
        [("a", 1)] = some ({ TextClust.init 0.3 0.0005 100 true false
            distances.tfidf_cosine distances.tfidf_cosine 3 0 true true 1 with
          dist_mean := (TextClust.init 0.3 0.0005 100 true false
            distances.tfidf_cosine distances.tfidf_cosine 3 0 true true
            1).dist_mean + md,
          micro_clusters := aset (TextClust.init 0.3 0.0005 100 true false
            distances.tfidf_cosine distances.tfidf_cosine 3 0 true true
            1).micro_clusters 0 (microcluster.init [("a", 1)]
              (TextClust.init 0.3 0.0005 100 true false distances.tfidf_cosine
                distances.tfidf_cosine 3 0 true true 1).t 1 none (some 0)),
          clusterId := 1 }, some 0) := by
  refine ⟨rfl, by simp [TextClust.init], ?_⟩
  have h := adaptive_few_candidates_creates (TextClust.init 0.3 0.0005 100 true
    false distances.tfidf_cosine distances.tfidf_cosine 3 0 true true 1)
    [("a", 1)] rfl (by simp [TextClust.init])
  simpa [TextClust.init] using h

theorem get_closest_mc_spec (s : TextClust) (mc : microcluster) :
    ∃ cid md, get_closest_mc s mc
        (calculateIDF (s.micro_clusters.map Prod.snd)) = some (cid, md) ∧
      ∀ c, cid = some c → c ∈ s.micro_clusters.map Prod.fst := by
  have hcov : ∀ kc ∈ s.micro_clusters, ∀ p ∈ (Prod.snd kc).tf,
      (alookup (calculateIDF (s.micro_clusters.map Prod.snd)) p.1).isSome := by
    intro kc hkc p hp
    exact calculateIDF_covers _ kc.2 (List.mem_map_of_mem _ hkc) p.1
      (List.mem_map_of_mem _ hp)
  obtain ⟨acc2, hs, -, hkey⟩ := closestScan_spec s.micro_distance mc
    (calculateIDF (s.micro_clusters.map Prod.snd)) s.micro_clusters
    { min_dist := 1, smallest_key := none, sumdist := 0, squaresum := 0,
      counter := 0 } hcov
  have hmem : ∀ c, acc2.smallest_key = some c →
      c ∈ s.micro_clusters.map Prod.fst := by
    intro c hc
    rcases hkey with hkey | ⟨k, hk, hkey⟩
    · simp only [hc] at hkey; cases hkey
    · rw [hc] at hkey
      obtain rfl : c = k := Option.some.inj hkey
      exact hk
  simp only [get_closest_mc, hs]
  split_ifs with h1 h2 h3 h4
  · exact ⟨acc2.smallest_key, acc2.min_dist, rfl, hmem⟩
  · exact ⟨none, acc2.min_dist, rfl, by intro c hc; cases hc⟩
  · exact ⟨none, acc2.min_dist, rfl, by intro c hc; cases hc⟩
  · exact ⟨acc2.smallest_key, acc2.min_dist, rfl, hmem⟩
  · exact ⟨none, acc2.min_dist, rfl, by intro c hc; cases hc⟩

/-! ## Claim C1 -/

/-- Claim C1 (amended): the ingestion decision is total, and on *every*
ingestion — merge path and create path alike — the running distance total
`_dist_mean` grows by the observation's min-distance; only the merge
counter `_num_merged_obs` is incremented exclusively on merge-path
ingestions.  In adaptive mode the pairwise merge-pass threshold therefore
equals (sum of the min-distances of all ingestions since the last cleanup)
divided by (number of merge-path ingestions + 1). -/
theorem learn_core_dist_accumulation (s : TextClust) (x : List (String × ℝ)) :
    ∃ cid md s1 r,
      get_closest_mc s (microcluster.init x s.t 1 s.realtime (some s.clusterId))
        (calculateIDF (s.micro_clusters.map Prod.snd)) = some (cid, md) ∧
      learn_core s x = some (s1, r) ∧
      s1.dist_mean = s.dist_mean + md ∧
      s1.num_merged_obs = s.num_merged_obs + (if cid.isSome then 1 else 0) ∧
      (s.auto_r = true →
        mergeThreshold s1 = s1.dist_mean / ((s1.num_merged_obs : ℝ) + 1)) := by
  obtain ⟨cid, md, hg, hmem⟩ := get_closest_mc_spec s
    (microcluster.init x s.t 1 s.realtime (some s.clusterId))
  cases cid with
  | none =>
      refine ⟨none, md,
        { s with
            dist_mean := s.dist_mean + md,
            micro_clusters := aset s.micro_clusters s.clusterId
              (microcluster.init x s.t 1 s.realtime (some s.clusterId)),
            clusterId := s.clusterId + 1 },
        some s.clusterId, hg, by simp only [learn_core, hg], rfl, by simp, ?_⟩
      intro hauto
      simp [mergeThreshold, hauto]
  | some c =>
      have hks := hmem c rfl
      obtain ⟨target, htgt⟩ := Option.isSome_iff_exists.mp
        ((alookup_isSome s.micro_clusters c).mpr hks)
      refine ⟨some c, md,
        { s with
            num_merged_obs := s.num_merged_obs + 1,
            micro_clusters := aset s.micro_clusters c
              (({ target with n := target.n + 1 } : microcluster).merge
                (microcluster.init x s.t 1 s.realtime (some s.clusterId))
                s.t s.omega s.fading_factor s.term_fading s.realtime).1,
            dist_mean := s.dist_mean + md },
        some c, hg, by simp only [learn_core, hg, htgt], rfl, by simp, ?_⟩
      intro hauto
      simp [mergeThreshold, hauto]

/-- Claim C1 counterexample: a create-path ingestion changes the running
merged-distance total.  On a fresh adaptive engine the first observation is
compared against zero clusters (min-distance stays at its initial 1) and
creates cluster 0, yet `_dist_mean` becomes 1 while `_num_merged_obs`
stays 0 — the create path does not leave the total unchanged. -/
theorem create_path_changes_dist_mean :
    (learn_one (TextClust.init 0.3 0.0005 100 true false
        distances.tfidf_cosine distances.tfidf_cosine 3 0 true true 1)
      [("a", 1)] 0).map (fun p =>
        (p.1.dist_mean, p.1.num_merged_obs, p.1.micro_clusters.map Prod.fst,
          p.2)) = some (1, 0, [0], some 0) := by
  norm_num [learn_one, learn_core, get_closest_mc, closestScan, calculateIDF,
    TextClust.init, microcluster.init, aset]

theorem scanMin_acc_some :
    ∀ (l : List (ℝ × ℕ × ℕ)) (b : ℝ × ℕ × ℕ),
      ∃ q, scanMin l (some b) = some q := by
  intro l
  induction l with
  | nil => intro b; exact ⟨b, rfl⟩
  | cons x rest ih =>
      intro b
      obtain ⟨dv, i, j⟩ := x
      obtain ⟨bd, bi, bj⟩ := b
      by_cases hlt : dv < bd
      · obtain ⟨q, hq⟩ := ih (dv, i, j)
        exact ⟨q, by simpa only [scanMin, if_pos hlt] using hq⟩
      · obtain ⟨q, hq⟩ := ih (bd, bi, bj)
        exact ⟨q, by simpa only [scanMin, if_neg hlt] using hq⟩

theorem scanMin_total (l : List (ℝ × ℕ × ℕ)) (hl : l ≠ []) :
    ∃ q, scanMin l none = some q := by
  cases l with
  | nil => exact absurd rfl hl
  | cons x rest =>
      obtain ⟨dv, i, j⟩ := x
      simpa only [scanMin] using scanMin_acc_some rest (dv, i, j)

theorem scanMin_mem :
    ∀ (l : List (ℝ × ℕ × ℕ)) (acc : Option (ℝ × ℕ × ℕ)) (q : ℝ × ℕ × ℕ),
      scanMin l acc = some q → q ∈ l ∨ acc = some q := by
  intro l
  induction l with
  | nil => intro acc q h; exact Or.inr h
  | cons x rest ih =>
      intro acc q h
      obtain ⟨dv, i, j⟩ := x
      cases acc with
      | none =>
          simp only [scanMin] at h
          rcases ih _ _ h with h2 | h2
          · exact Or.inl (List.mem_cons_of_mem _ h2)
          · obtain rfl := Option.some.inj h2
            exact Or.inl (List.mem_cons_self ..)
      | some b =>
          obtain ⟨bd, bi, bj⟩ := b
          simp only [scanMin] at h
          by_cases hlt : dv < bd
          · rw [if_pos hlt] at h
            rcases ih _ _ h with h2 | h2
            · exact Or.inl (List.mem_cons_of_mem _ h2)
            · obtain rfl := Option.some.inj h2
              exact Or.inl (List.mem_cons_self ..)
          · rw [if_neg hlt] at h
            rcases ih _ _ h with h2 | h2
            · exact Or.inl (List.mem_cons_of_mem _ h2)
            · exact Or.inr h2

theorem allQuads_bounds (d : ℕ → ℕ → ℝ) (groups : List (List ℕ))
    (q : ℝ × ℕ × ℕ) (hq : q ∈ allQuads d groups) :
    q.2.1 < q.2.2 ∧ q.2.2 < groups.length := by
  simp only [allQuads, List.mem_flatMap, List.mem_range] at hq
  obtain ⟨i, hi, j, hj, hq⟩ := hq
  by_cases hij : i < j
  · rw [if_pos hij] at hq
    simp only [List.mem_flatMap, List.mem_map] at hq
    obtain ⟨ci, hci, cj, hcj, rfl⟩ := hq
    exact ⟨hij, hj⟩
  · rw [if_neg hij] at hq
    cases hq

theorem allQuads_ne_nil (d : ℕ → ℕ → ℝ) (groups : List (List ℕ))
    (h2 : 2 ≤ groups.length) (hne : ∀ g ∈ groups, g ≠ []) :
    allQuads d groups ≠ [] := by
  rcases groups with _ | ⟨g0, _ | ⟨g1, rest⟩⟩
  · simp at h2
  · simp at h2
  · obtain ⟨c0, hc0⟩ := List.exists_mem_of_ne_nil g0 (hne g0 (by simp))
    obtain ⟨c1, hc1⟩ := List.exists_mem_of_ne_nil g1 (hne g1 (by simp))
    apply List.ne_nil_of_mem (a := (d c0 c1, 0, 1))
    simp only [allQuads, List.mem_flatMap, List.mem_range]
    refine ⟨0, by simp, 1, by simp, ?_⟩
    rw [if_pos (by norm_num)]
    simp only [List.mem_flatMap, List.mem_map, List.getD_cons_zero,
      List.getD_cons_succ]
    exact ⟨c0, hc0, c1, hc1, rfl⟩

theorem flatten_map_singleton (ids : List ℕ) :
    (ids.map (fun i => [i])).flatten = ids := by
  induction ids with
  | nil => rfl
  | cons a l ih => simp [ih]

theorem getD_erase_perm :
    ∀ (l : List (List ℕ)) (j : ℕ), j < l.length →
      (l.getD j [] ++ (l.eraseIdx j).flatten).Perm l.flatten := by
  intro l
  induction l with
  | nil => intro j hj; simp at hj
  | cons g rest ih =>
      intro j hj
      cases j with
      | zero => simp
      | succ j1 =>
          have hj1 : j1 < rest.length := by simpa using hj
          have hih := ih j1 hj1
          simp only [List.getD_cons_succ, List.eraseIdx_cons_succ,
            List.flatten_cons]
          have h1 : rest.getD j1 [] ++ (g ++ (rest.eraseIdx j1).flatten)
              = (rest.getD j1 [] ++ g) ++ (rest.eraseIdx j1).flatten := by
            rw [List.append_assoc]
          have h2p : ((rest.getD j1 [] ++ g) ++
              (rest.eraseIdx j1).flatten).Perm
              ((g ++ rest.getD j1 []) ++ (rest.eraseIdx j1).flatten) :=
            (List.perm_append_comm).append_right _
          rw [h1]
          refine h2p.trans ?_
          rw [List.append_assoc]
          exact hih.append_left g

theorem mergeGroups_flatten_perm :
    ∀ (l : List (List ℕ)) (i j : ℕ), i < j → j < l.length →
      (mergeGroups l i j).flatten.Perm l.flatten := by
  intro l
  induction l with
  | nil => intro i j hij hj; simp at hj
  | cons g rest ih =>
      intro i j hij hj
      cases i with
      | zero =>
          obtain ⟨j1, rfl⟩ : ∃ j1, j = j1 + 1 := ⟨j - 1, by omega⟩
          have hj1 : j1 < rest.length := by simpa using hj
          simp only [mergeGroups, List.getD_cons_zero, List.getD_cons_succ,
            List.set_cons_zero, List.eraseIdx_cons_succ, List.flatten_cons,
            List.append_assoc]
          exact (getD_erase_perm rest j1 hj1).append_left g
      | succ i1 =>
          obtain ⟨j1, rfl⟩ : ∃ j1, j = j1 + 1 := ⟨j - 1, by omega⟩
          have hij1 : i1 < j1 := by omega
          have hj1 : j1 < rest.length := by simpa using hj
          have hih := ih i1 j1 hij1 hj1
          simp only [mergeGroups, List.getD_cons_succ, List.set_cons_succ,
            List.eraseIdx_cons_succ, List.flatten_cons] at hih ⊢
          exact hih.append_left g

theorem agglomLoop_spec (d : ℕ → ℕ → ℝ) (k : ℕ) :
    ∀ (n : ℕ) (groups : List (List ℕ)), groups.length = n →
      1 ≤ k → k ≤ groups.length → (∀ g ∈ groups, g ≠ []) →
      ∃ gs, agglomLoop d k groups = some gs ∧ gs.length = k ∧
        gs.flatten.Perm groups.flatten ∧ ∀ g ∈ gs, g ≠ [] := by
  intro n
  induction n using Nat.strong_induction_on with
  | _ n ih =>
      intro groups hn hk hkle hne
      by_cases heq : groups.length = k
      · refine ⟨groups, ?_, heq, List.Perm.refl _, hne⟩
        rw [agglomLoop, if_pos heq]
      · have h2 : 2 ≤ groups.length := by omega
        obtain ⟨⟨dv, i, j⟩, hq⟩ := scanMin_total (allQuads d groups)
          (allQuads_ne_nil d groups h2 hne)
        have hmemq : (dv, i, j) ∈ allQuads d groups := by
          rcases scanMin_mem (allQuads d groups) none (dv, i, j) hq with h | h
          · exact h
          · cases h
        obtain ⟨hij, hjlen⟩ := allQuads_bounds d groups (dv, i, j) hmemq
        have hglen : (mergeGroups groups i j).length = groups.length - 1 := by
          simp [mergeGroups, List.length_eraseIdx, List.length_set, hjlen]
        have hgne : ∀ g ∈ mergeGroups groups i j, g ≠ [] := by
          intro g hg
          simp only [mergeGroups] at hg
          have hg2 := (List.eraseIdx_subset ..) hg
          rcases List.mem_or_eq_of_mem_set hg2 with hmem | rfl
          · exact hne g hmem
          · have hilen : i < groups.length := lt_trans hij hjlen
            have hgetD : groups.getD i [] ≠ [] := by
              rw [List.getD_eq_getElem _ _ hilen]
              exact hne _ (List.getElem_mem ..)
            intro hcontra
            exact hgetD (List.append_eq_nil.mp hcontra).1
        obtain ⟨gs, hgs, hlen2, hperm, hne2⟩ := ih (groups.length - 1)
          (by omega) (mergeGroups groups i j) hglen hk (by omega) hgne
        refine ⟨gs, ?_, hlen2,
          hperm.trans (mergeGroups_flatten_perm groups i j hij hjlen), hne2⟩
        rw [agglomLoop, if_neg heq]
        simp only [hq]
        rw [dif_pos ⟨hjlen, hij⟩]
        exact hgs

theorem matrixRow_total (dm : distances) (idf : List (String × ℝ))
    (ki : ℕ) (ci : microcluster) :
    ∀ l : List (ℕ × microcluster),
      (∀ kc ∈ l, ∀ p ∈ (Prod.snd kc).tf, (alookup idf p.1).isSome) →
      ∃ r, matrixRow dm idf ki ci l = some r := by
  intro l
  induction l with
  | nil => intro _; exact ⟨[], rfl⟩
  | cons hd rest ih =>
      intro h
      obtain ⟨kj, cj⟩ := hd
      cases dm
      obtain ⟨d, hd2⟩ := tfidf_total ci cj idf
        (fun p hp => h (kj, cj) (List.mem_cons_self ..) p hp)
      have hdist : distances.dist distances.tfidf_cosine ci cj idf = some d := hd2
      obtain ⟨r, hr⟩ := ih (fun kc hkc => h kc (List.mem_cons_of_mem _ hkc))
      exact ⟨((ki, kj), d) :: r, by simp [matrixRow, hdist, hr]⟩

theorem matrixPairs_total (dm : distances) (idf : List (String × ℝ)) :
    ∀ l : List (ℕ × microcluster),
      (∀ kc ∈ l, ∀ p ∈ (Prod.snd kc).tf, (alookup idf p.1).isSome) →
      ∃ r, matrixPairs dm idf l = some r := by
  intro l
  induction l with
  | nil => intro _; exact ⟨[], rfl⟩
  | cons hd rest ih =>
      intro h
      obtain ⟨ki, ci⟩ := hd
      obtain ⟨row, hrow⟩ := matrixRow_total dm idf ki ci rest
        (fun kc hkc => h kc (List.mem_cons_of_mem _ hkc))
      obtain ⟨r, hr⟩ := ih (fun kc hkc => h kc (List.mem_cons_of_mem _ hkc))
      exact ⟨row ++ r, by simp [matrixPairs, hrow, hr]⟩

theorem get_distance_matrix_total (s : TextClust)
    (clusters : List (ℕ × microcluster)) :
    ∃ r, get_distance_matrix s clusters = some r := by
  have hcov : ∀ kc ∈ clusters, ∀ p ∈ (Prod.snd kc).tf,
      (alookup (calculateIDF (clusters.map Prod.snd)) p.1).isSome := by
    intro kc hkc p hp
    exact calculateIDF_covers _ kc.2 (List.mem_map_of_mem _ hkc) p.1
      (List.mem_map_of_mem _ hp)
  exact matrixPairs_total s.macro_distance _ clusters hcov

/-! ## Claim C9 -/

/-- Claim C9: for every target count `k ≥ 1` and every list of `m ≥ k`
eligible micro-clusters with distinct ids, the greedy single-linkage
agglomerative clustering step terminates and returns exactly `k` groups
that are pairwise disjoint and whose union (as a permutation of the id
list) is the full eligible set. -/
theorem agglomerative_clustering_partitions (s : TextClust)
    (micros : List (ℕ × microcluster)) (k : ℕ)
    (hk : 1 ≤ k) (hm : k ≤ micros.length)
    (hnd : (micros.map Prod.fst).Nodup) :
    ∃ gs, agglomerative_clustering s micros k = some gs ∧
      gs.length = k ∧ gs.flatten.Perm (micros.map Prod.fst) ∧
      List.Pairwise List.Disjoint gs := by
  obtain ⟨pairs, hpairs⟩ := get_distance_matrix_total s micros
  obtain ⟨gs, hgs, hlen, hperm, -⟩ := agglomLoop_spec (matLookup pairs) k
    (micros.map (fun p => [p.1])).length (micros.map fun p => [p.1]) rfl hk
    (by simpa using hm)
    (by rintro g hg; simp only [List.mem_map] at hg; obtain ⟨p, -, rfl⟩ := hg; simp)
  have hflat : (micros.map (fun p => [p.1])).flatten = micros.map Prod.fst := by
    have : micros.map (fun p => [p.1])
        = (micros.map Prod.fst).map (fun i => [i]) := by
      rw [List.map_map]; rfl
    rw [this, flatten_map_singleton]
  rw [hflat] at hperm
  refine ⟨gs, by simp only [agglomerative_clustering, hpairs]; exact hgs,
    hlen, hperm, ?_⟩
  have hnd2 : gs.flatten.Nodup := (hperm.nodup_iff).mpr hnd
  exact (List.nodup_flatten.mp hnd2).2

/-- Witness for C9: two concrete micro-clusters merged into one group. -/
theorem agglomerative_clustering_partitions_witness :
    (1 ≤ 1 ∧
      1 ≤ ([((5:ℕ), microcluster.init [("a", 1)] 0 1 none (some 5)),
        (7, microcluster.init [("b", 1)] 0 1 none (some 7))]).length ∧
      (([((5:ℕ), microcluster.init [("a", 1)] 0 1 none (some 5)),
        (7, microcluster.init [("b", 1)] 0 1 none (some 7))]).map
          Prod.fst).Nodup) ∧
    ∃ gs, agglomerative_clustering (TextClust.init 0.3 0.0005 100 true true
        distances.tfidf_cosine distances.tfidf_cosine 3 0 false true 1)
      [((5:ℕ), microcluster.init [("a", 1)] 0 1 none (some 5)),
        (7, microcluster.init [("b", 1)] 0 1 none (some 7))] 1 = some gs ∧
      gs.length = 1 ∧
      gs.flatten.Perm
        (([((5:ℕ), microcluster.init [("a", 1)] 0 1 none (some 5)),
          (7, microcluster.init [("b", 1)] 0 1 none (some 7))]).map Prod.fst) ∧
      List.Pairwise List.Disjoint gs := by
  refine ⟨⟨le_refl 1, by simp, by simp⟩, ?_⟩
  exact agglomerative_clustering_partitions (TextClust.init 0.3 0.0005 100
    true true distances.tfidf_cosine distances.tfidf_cosine 3 0 false true 1)
    [((5:ℕ), microcluster.init [("a", 1)] 0 1 none (some 5)),
      (7, microcluster.init [("b", 1)] 0 1 none (some 7))] 1
    (le_refl 1) (by simp) (by simp)

theorem alookup_mem {κ α : Type} [DecidableEq κ] :
    ∀ (l : List (κ × α)) (k : κ) (v : α), alookup l k = some v → (k, v) ∈ l := by
  intro l
  induction l with
  | nil => intro k v h; simp [alookup] at h
  | cons hd rest ih =>
      intro k v h
      obtain ⟨k1, v1⟩ := hd
      by_cases hk : k1 = k
      · subst hk
        have h2 : v1 = v := by simpa [alookup] using h
        subst h2
        exact List.mem_cons_self ..
      · simp only [alookup, if_neg hk] at h
        exact List.mem_cons_of_mem _ (ih k v h)

theorem alookup_eq_none {κ α : Type} [DecidableEq κ] (l : List (κ × α))
    (k : κ) (h : k ∉ l.map Prod.fst) : alookup l k = none := by
  by_contra hne
  obtain ⟨v, hv⟩ := Option.ne_none_iff_exists'.mp hne
  exact h (List.mem_map_of_mem Prod.fst (alookup_mem l k v hv))

theorem alookup_of_mem_nodup {κ α : Type} [DecidableEq κ] :
    ∀ (l : List (κ × α)), (l.map Prod.fst).Nodup → ∀ p ∈ l,
      alookup l p.1 = some p.2 := by
  intro l
  induction l with
  | nil => intro _ p hp; simp at hp
  | cons hd rest ih =>
      intro hnd p hp
      obtain ⟨k1, v1⟩ := hd
      simp only [List.map_cons, List.nodup_cons] at hnd
      obtain ⟨hk1, hnd2⟩ := hnd
      rcases List.mem_cons.mp hp with rfl | hp2
      · simp [alookup]
      · have hne : k1 ≠ p.1 := by
          intro hcontra
          exact hk1 (hcontra ▸ List.mem_map_of_mem Prod.fst hp2)
        simp only [alookup, if_neg hne]
        exact ih hnd2 p hp2

theorem alookup_getD_nonneg {κ : Type} [DecidableEq κ]
    (l : List (κ × ℝ)) (k : κ) (h : ∀ p ∈ l, 0 ≤ p.2) :
    0 ≤ (alookup l k).getD 0 := by
  cases hl : alookup l k with
  | none => simp
  | some v => simpa using h (k, v) (alookup_mem l k v hl)

theorem distLoopA_eq (idf otherTf : List (String × ℝ)) :
    ∀ l, distLoopA idf otherTf l =
      ((l.map (fun p => (p.2 * (alookup idf p.1).getD 0) *
          ((alookup otherTf p.1).getD 0 * (alookup idf p.1).getD 0))).sum,
       (l.map (fun p => p.2 * (alookup idf p.1).getD 0 * p.2 *
          (alookup idf p.1).getD 0)).sum) := by
  intro l
  induction l with
  | nil => simp [distLoopA]
  | cons hd rest ih =>
      obtain ⟨k, a⟩ := hd
      simp only [distLoopA, ih, List.map_cons, List.sum_cons]
      cases hidf : alookup idf k with
      | none => simp [hidf]
      | some i =>
          cases hoth : alookup otherTf k with
          | none =>
              simp only [hidf, hoth, Option.getD_none, Option.getD_some,
                Prod.mk.injEq, mul_zero, zero_mul]
              exact ⟨by ring, by ring⟩
          | some b =>
              simp only [hidf, hoth, Option.getD_some, Prod.mk.injEq]
              exact ⟨by ring, by ring⟩

theorem distLoopB_eq (idf : List (String × ℝ)) :
    ∀ l, (∀ p ∈ l, (alookup idf p.1).isSome) →
      distLoopB idf l = some ((l.map (fun p =>
        p.2 * (alookup idf p.1).getD 0 * p.2 *
          (alookup idf p.1).getD 0)).sum) := by
  intro l
  induction l with
  | nil => intro _; simp [distLoopB]
  | cons hd rest ih =>
      intro h
      obtain ⟨k, b⟩ := hd
      obtain ⟨i, hi⟩ := Option.isSome_iff_exists.mp (h (k, b) (by simp))
      have hrest := ih (fun p hp => h p (by simp [hp]))
      simp only [distLoopB, hi, hrest, Option.map_some', List.map_cons,
        List.sum_cons, Option.some.injEq]
      simp [hi]
      ring

theorem sum_map_eq_finset_sum (F : String → ℝ → ℝ) :
    ∀ l : List (String × ℝ), (l.map Prod.fst).Nodup →
      (l.map (fun p => F p.1 p.2)).sum =
        ∑ k ∈ (l.map Prod.fst).toFinset, F k ((alookup l k).getD 0) := by
  intro l
  induction l with
  | nil => intro _; simp
  | cons hd rest ih =>
      intro hnd
      obtain ⟨k0, v0⟩ := hd
      simp only [List.map_cons, List.nodup_cons] at hnd
      obtain ⟨hk0, hnd2⟩ := hnd
      simp only [List.map_cons, List.sum_cons, List.toFinset_cons]
      rw [Finset.sum_insert (by simpa using hk0)]
      congr 1
      · simp [alookup]
      · rw [ih hnd2]
        apply Finset.sum_congr rfl
        intro k hk
        have hkne : k0 ≠ k := by
          intro hcontra
          exact hk0 (hcontra ▸ List.mem_toFinset.mp hk)
        simp [alookup, hkne]

theorem round10_zero : round10 0 = 0 := by
  simp [round10]

theorem round10_nonneg (x : ℝ) (hx : 0 ≤ x) : 0 ≤ round10 x := by
  have h1 : (0:ℤ) ≤ round (x * 10 ^ 10) := by
    rw [round_eq]
    apply Int.le_floor.mpr
    push_cast
    positivity
  unfold round10
  positivity

theorem round10_le_one (x : ℝ) (hx : x ≤ 1) : round10 x ≤ 1 := by
  have h1 : round (x * 10 ^ 10) ≤ (10 ^ 10 : ℤ) := by
    rw [round_eq]
    have h2 : x * 10 ^ 10 + 1 / 2 < ((10 ^ 10 : ℤ) : ℝ) + 1 := by
      push_cast
      nlinarith
    have h3 := Int.floor_lt.mpr (by push_cast at h2 ⊢; linarith :
      x * 10 ^ 10 + 1 / 2 < ((10 ^ 10 + 1 : ℤ) : ℝ))
    omega
  rw [round10, div_le_one (by positivity)]
  exact_mod_cast h1

theorem cs_core (S T : Finset String) (f g : String → ℝ)
    (hg0 : ∀ k, k ∉ T → g k = 0) :
    ∑ k ∈ S, f k * g k ≤
      Real.sqrt (∑ k ∈ S, f k * f k) * Real.sqrt (∑ k ∈ T, g k * g k) := by
  have h1 : ∑ k ∈ S, f k * g k ≤
      Real.sqrt (∑ k ∈ S, f k ^ 2) * Real.sqrt (∑ k ∈ S, g k ^ 2) :=
    Real.sum_mul_le_sqrt_mul_sqrt S f g
  have h2 : ∑ k ∈ S, g k ^ 2 ≤ ∑ k ∈ T, g k ^ 2 := by
    have e : ∑ k ∈ S, g k ^ 2 = ∑ k ∈ S ∩ T, g k ^ 2 :=
      (Finset.sum_subset Finset.inter_subset_left (fun k hk hnk => by
        have hkT : k ∉ T := fun hT => hnk (Finset.mem_inter.mpr ⟨hk, hT⟩)
        simp [hg0 k hkT])).symm
    rw [e]
    exact Finset.sum_le_sum_of_subset_of_nonneg Finset.inter_subset_right
      (fun k _ _ => sq_nonneg _)
  have h3 : Real.sqrt (∑ k ∈ S, g k ^ 2) ≤ Real.sqrt (∑ k ∈ T, g k ^ 2) :=
    Real.sqrt_le_sqrt h2
  have h4 := h1.trans (mul_le_mul_of_nonneg_left h3 (Real.sqrt_nonneg _))
  have e1 : ∑ k ∈ S, f k ^ 2 = ∑ k ∈ S, f k * f k :=
    Finset.sum_congr rfl (fun k _ => sq (f k) ▸ by ring)
  have e2 : ∑ k ∈ T, g k ^ 2 = ∑ k ∈ T, g k * g k :=
    Finset.sum_congr rfl (fun k _ => by ring)
  rwa [e1, e2] at h4

theorem dot_comm_core (S T : Finset String) (f g : String → ℝ)
    (hf0 : ∀ k, k ∉ S → f k = 0) (hg0 : ∀ k, k ∉ T → g k = 0) :
    ∑ k ∈ S, f k * g k = ∑ k ∈ T, g k * f k := by
  have e1 : ∑ k ∈ S, f k * g k = ∑ k ∈ S ∩ T, f k * g k :=
    (Finset.sum_subset Finset.inter_subset_left (fun k hk hnk => by
      have hkT : k ∉ T := fun hT => hnk (Finset.mem_inter.mpr ⟨hk, hT⟩)
      simp [hg0 k hkT])).symm
  have e2 : ∑ k ∈ T, g k * f k = ∑ k ∈ T ∩ S, g k * f k :=
    (Finset.sum_subset Finset.inter_subset_left (fun k hk hnk => by
      have hkS : k ∉ S := fun hS => hnk (Finset.mem_inter.mpr ⟨hk, hS⟩)
      simp [hf0 k hkS])).symm
  rw [e1, e2, Finset.inter_comm]
  exact Finset.sum_congr rfl (fun k _ => mul_comm _ _)

/-! ## Claim C6 -/

/-- Claim C6: for all term-weight vectors `A`, `B` with non-negative
weights and unique keys whose terms all have entries in the rarity
weighting `idf`: the TF-IDF cosine distance lies in `[0, 1]`;
`dist(A, A) = 0` whenever `A` has nonzero norm under the rarity weighting;
and `dist(A, B) = dist(B, A)`. -/
theorem tfidf_bounds_self_symm (A B : microcluster) (idf : List (String × ℝ))
    (hA0 : ∀ p ∈ A.tf, 0 ≤ p.2) (hB0 : ∀ p ∈ B.tf, 0 ≤ p.2)
    (hAnd : (A.tf.map Prod.fst).Nodup) (hBnd : (B.tf.map Prod.fst).Nodup)
    (hAidf : ∀ p ∈ A.tf, (alookup idf p.1).isSome)
    (hBidf : ∀ p ∈ B.tf, (alookup idf p.1).isSome) :
    (∃ d, tfidf_cosine_distance A B idf = some d ∧ 0 ≤ d ∧ d ≤ 1) ∧
    ((distLoopA idf A.tf A.tf).2 ≠ 0 →
      tfidf_cosine_distance A A idf = some 0) ∧
    tfidf_cosine_distance A B idf = tfidf_cosine_distance B A idf := by
  have eAB := distLoopA_eq idf B.tf A.tf
  have eBA := distLoopA_eq idf A.tf B.tf
  have eAA := distLoopA_eq idf A.tf A.tf
  have hBfull := distLoopB_eq idf B.tf hBidf
  have hAfull := distLoopB_eq idf A.tf hAidf
  have cSA : (A.tf.map (fun p => p.2 * (alookup idf p.1).getD 0 * p.2 *
      (alookup idf p.1).getD 0)).sum
      = ∑ k ∈ (A.tf.map Prod.fst).toFinset,
          lookv A.tf k * lookv idf k * lookv A.tf k * lookv idf k :=
    sum_map_eq_finset_sum (fun k v => v * lookv idf k * v * lookv idf k)
      A.tf hAnd
  have cSB : (B.tf.map (fun p => p.2 * (alookup idf p.1).getD 0 * p.2 *
      (alookup idf p.1).getD 0)).sum
      = ∑ k ∈ (B.tf.map Prod.fst).toFinset,
          lookv B.tf k * lookv idf k * lookv B.tf k * lookv idf k :=
    sum_map_eq_finset_sum (fun k v => v * lookv idf k * v * lookv idf k)
      B.tf hBnd
  have cdotAB : (A.tf.map (fun p => (p.2 * (alookup idf p.1).getD 0) *
      ((alookup B.tf p.1).getD 0 * (alookup idf p.1).getD 0))).sum
      = ∑ k ∈ (A.tf.map Prod.fst).toFinset,
          (lookv A.tf k * lookv idf k) * (lookv B.tf k * lookv idf k) :=
    sum_map_eq_finset_sum (fun k v => (v * lookv idf k) *
      (lookv B.tf k * lookv idf k)) A.tf hAnd
  have cdotBA : (B.tf.map (fun p => (p.2 * (alookup idf p.1).getD 0) *
      ((alookup A.tf p.1).getD 0 * (alookup idf p.1).getD 0))).sum
      = ∑ k ∈ (B.tf.map Prod.fst).toFinset,
          (lookv B.tf k * lookv idf k) * (lookv A.tf k * lookv idf k) :=
    sum_map_eq_finset_sum (fun k v => (v * lookv idf k) *
      (lookv A.tf k * lookv idf k)) B.tf hBnd
  have hav : ∀ k, 0 ≤ lookv A.tf k :=
    fun k => alookup_getD_nonneg A.tf k hA0
  have hbv : ∀ k, 0 ≤ lookv B.tf k :=
    fun k => alookup_getD_nonneg B.tf k hB0
  have hSAnn : 0 ≤ ∑ k ∈ (A.tf.map Prod.fst).toFinset,
      lookv A.tf k * lookv idf k * lookv A.tf k * lookv idf k :=
    Finset.sum_nonneg (fun k _ => by
      nlinarith [sq_nonneg (lookv A.tf k * lookv idf k)])
  have hSBnn : 0 ≤ ∑ k ∈ (B.tf.map Prod.fst).toFinset,
      lookv B.tf k * lookv idf k * lookv B.tf k * lookv idf k :=
    Finset.sum_nonneg (fun k _ => by
      nlinarith [sq_nonneg (lookv B.tf k * lookv idf k)])
  have hdotnn : 0 ≤ ∑ k ∈ (A.tf.map Prod.fst).toFinset,
      (lookv A.tf k * lookv idf k) * (lookv B.tf k * lookv idf k) :=
    Finset.sum_nonneg (fun k _ => by
      have h : (lookv A.tf k * lookv idf k) * (lookv B.tf k * lookv idf k)
          = (lookv A.tf k * lookv B.tf k) * (lookv idf k * lookv idf k) := by
        ring
      rw [h]
      exact mul_nonneg (mul_nonneg (hav k) (hbv k)) (mul_self_nonneg _))
  have havan : ∀ k, k ∉ (A.tf.map Prod.fst).toFinset → lookv A.tf k = 0 := by
    intro k hk
    rw [lookv, alookup_eq_none A.tf k (fun hmem => hk (List.mem_toFinset.mpr hmem))]
    rfl
  have hbvan : ∀ k, k ∉ (B.tf.map Prod.fst).toFinset → lookv B.tf k = 0 := by
    intro k hk
    rw [lookv, alookup_eq_none B.tf k (fun hmem => hk (List.mem_toFinset.mpr hmem))]
    rfl
  have hCS : ∑ k ∈ (A.tf.map Prod.fst).toFinset,
      (lookv A.tf k * lookv idf k) * (lookv B.tf k * lookv idf k) ≤
      Real.sqrt (∑ k ∈ (A.tf.map Prod.fst).toFinset,
        lookv A.tf k * lookv idf k * lookv A.tf k * lookv idf k) *
      Real.sqrt (∑ k ∈ (B.tf.map Prod.fst).toFinset,
        lookv B.tf k * lookv idf k * lookv B.tf k * lookv idf k) := by
    have h := cs_core (A.tf.map Prod.fst).toFinset (B.tf.map Prod.fst).toFinset
      (fun k => lookv A.tf k * lookv idf k) (fun k => lookv B.tf k * lookv idf k)
      (fun k hk => by show lookv B.tf k * lookv idf k = 0; rw [hbvan k hk]; ring)
    have e1 : ∑ k ∈ (A.tf.map Prod.fst).toFinset,
        (lookv A.tf k * lookv idf k) * (lookv A.tf k * lookv idf k)
        = ∑ k ∈ (A.tf.map Prod.fst).toFinset,
          lookv A.tf k * lookv idf k * lookv A.tf k * lookv idf k :=
      Finset.sum_congr rfl (fun k _ => by ring)
    have e2 : ∑ k ∈ (B.tf.map Prod.fst).toFinset,
        (lookv B.tf k * lookv idf k) * (lookv B.tf k * lookv idf k)
        = ∑ k ∈ (B.tf.map Prod.fst).toFinset,
          lookv B.tf k * lookv idf k * lookv B.tf k * lookv idf k :=
      Finset.sum_congr rfl (fun k _ => by ring)
    rw [e1, e2] at h
    exact h
  refine ⟨?_, ?_, ?_⟩
  · -- bounds
    simp only [tfidf_cosine_distance, hBfull, eAB]
    rw [cSA, cSB, cdotAB]
    by_cases hc : Real.sqrt (∑ k ∈ (A.tf.map Prod.fst).toFinset,
        lookv A.tf k * lookv idf k * lookv A.tf k * lookv idf k) = 0 ∨
        Real.sqrt (∑ k ∈ (B.tf.map Prod.fst).toFinset,
          lookv B.tf k * lookv idf k * lookv B.tf k * lookv idf k) = 0
    · rw [if_pos hc]
      exact ⟨1, rfl, by norm_num, le_refl 1⟩
    · rw [if_neg hc]
      push_neg at hc
      have hSApos : 0 < Real.sqrt (∑ k ∈ (A.tf.map Prod.fst).toFinset,
          lookv A.tf k * lookv idf k * lookv A.tf k * lookv idf k) :=
        (Real.sqrt_nonneg _).lt_of_ne (Ne.symm hc.1)
      have hSBpos : 0 < Real.sqrt (∑ k ∈ (B.tf.map Prod.fst).toFinset,
          lookv B.tf k * lookv idf k * lookv B.tf k * lookv idf k) :=
        (Real.sqrt_nonneg _).lt_of_ne (Ne.symm hc.2)
      have hprod : 0 < Real.sqrt (∑ k ∈ (A.tf.map Prod.fst).toFinset,
          lookv A.tf k * lookv idf k * lookv A.tf k * lookv idf k) *
          Real.sqrt (∑ k ∈ (B.tf.map Prod.fst).toFinset,
            lookv B.tf k * lookv idf k * lookv B.tf k * lookv idf k) :=
        mul_pos hSApos hSBpos
      have hqle : (∑ k ∈ (A.tf.map Prod.fst).toFinset,
          (lookv A.tf k * lookv idf k) * (lookv B.tf k * lookv idf k)) /
          (Real.sqrt (∑ k ∈ (A.tf.map Prod.fst).toFinset,
            lookv A.tf k * lookv idf k * lookv A.tf k * lookv idf k) *
          Real.sqrt (∑ k ∈ (B.tf.map Prod.fst).toFinset,
            lookv B.tf k * lookv idf k * lookv B.tf k * lookv idf k)) ≤ 1 :=
        (div_le_one hprod).mpr hCS
      have hqnn : 0 ≤ (∑ k ∈ (A.tf.map Prod.fst).toFinset,
          (lookv A.tf k * lookv idf k) * (lookv B.tf k * lookv idf k)) /
          (Real.sqrt (∑ k ∈ (A.tf.map Prod.fst).toFinset,
            lookv A.tf k * lookv idf k * lookv A.tf k * lookv idf k) *
          Real.sqrt (∑ k ∈ (B.tf.map Prod.fst).toFinset,
            lookv B.tf k * lookv idf k * lookv B.tf k * lookv idf k)) :=
        div_nonneg hdotnn hprod.le
      exact ⟨_, rfl, round10_nonneg _ (by linarith), round10_le_one _ (by linarith)⟩
  · -- self distance
    intro hS
    have hlist : (A.tf.map (fun p => (p.2 * (alookup idf p.1).getD 0) *
        ((alookup A.tf p.1).getD 0 * (alookup idf p.1).getD 0))).sum
        = (A.tf.map (fun p => p.2 * (alookup idf p.1).getD 0 * p.2 *
            (alookup idf p.1).getD 0)).sum := by
      congr 1
      apply List.map_congr_left
      intro p hp
      rw [alookup_of_mem_nodup A.tf hAnd p hp]
      simp only [Option.getD_some]
      ring
    have hS2 : (A.tf.map (fun p => p.2 * (alookup idf p.1).getD 0 * p.2 *
        (alookup idf p.1).getD 0)).sum ≠ 0 := by
      intro hcontra
      apply hS
      rw [eAA]
      exact hcontra
    have hSnn : 0 ≤ (A.tf.map (fun p => p.2 * (alookup idf p.1).getD 0 * p.2 *
        (alookup idf p.1).getD 0)).sum := by
      rw [cSA]; exact hSAnn
    have hSpos : 0 < (A.tf.map (fun p => p.2 * (alookup idf p.1).getD 0 * p.2 *
        (alookup idf p.1).getD 0)).sum := hSnn.lt_of_ne (Ne.symm hS2)
    have hsqrt : Real.sqrt ((A.tf.map (fun p => p.2 * (alookup idf p.1).getD 0 *
        p.2 * (alookup idf p.1).getD 0)).sum) ≠ 0 :=
      Real.sqrt_ne_zero'.mpr hSpos
    simp only [tfidf_cosine_distance, hAfull, eAA]
    rw [if_neg (by rintro (h | h) <;> exact hsqrt h)]
    rw [hlist, Real.mul_self_sqrt hSnn, div_self hS2]
    simp [round10_zero]
  · -- symmetry
    simp only [tfidf_cosine_distance, hBfull, hAfull, eAB, eBA]
    rw [cSA, cSB, cdotAB, cdotBA]
    have hdoteq : ∑ k ∈ (A.tf.map Prod.fst).toFinset,
        (lookv A.tf k * lookv idf k) * (lookv B.tf k * lookv idf k)
        = ∑ k ∈ (B.tf.map Prod.fst).toFinset,
          (lookv B.tf k * lookv idf k) * (lookv A.tf k * lookv idf k) :=
      dot_comm_core (A.tf.map Prod.fst).toFinset (B.tf.map Prod.fst).toFinset
        (fun k => lookv A.tf k * lookv idf k)
        (fun k => lookv B.tf k * lookv idf k)
        (fun k hk => by show lookv A.tf k * lookv idf k = 0; rw [havan k hk]; ring)
        (fun k hk => by show lookv B.tf k * lookv idf k = 0; rw [hbvan k hk]; ring)
    by_cases hc : Real.sqrt (∑ k ∈ (A.tf.map Prod.fst).toFinset,
        lookv A.tf k * lookv idf k * lookv A.tf k * lookv idf k) = 0 ∨
        Real.sqrt (∑ k ∈ (B.tf.map Prod.fst).toFinset,
          lookv B.tf k * lookv idf k * lookv B.tf k * lookv idf k) = 0
    · rw [if_pos hc, if_pos (Or.symm hc)]
    · rw [if_neg hc, if_neg (fun h => hc (Or.symm h))]
      rw [hdoteq, mul_comm (Real.sqrt (∑ k ∈ (A.tf.map Prod.fst).toFinset,
        lookv A.tf k * lookv idf k * lookv A.tf k * lookv idf k))
        (Real.sqrt (∑ k ∈ (B.tf.map Prod.fst).toFinset,
          lookv B.tf k * lookv idf k * lookv B.tf k * lookv idf k))]

/-- Witness for C6 at concrete vectors `A = {"a": 2}`, `B = {"a": 3}`,
`idf = {"a": 1}`. -/
theorem tfidf_bounds_self_symm_witness :
    ((∀ p ∈ (microcluster.init [("a", 2)] 0 1 none none).tf, 0 ≤ p.2) ∧
      (∀ p ∈ (microcluster.init [("a", 3)] 0 1 none none).tf, 0 ≤ p.2) ∧
      ((microcluster.init [("a", 2)] 0 1 none none).tf.map Prod.fst).Nodup ∧
      ((microcluster.init [("a", 3)] 0 1 none none).tf.map Prod.fst).Nodup ∧
      (∀ p ∈ (microcluster.init [("a", 2)] 0 1 none none).tf,
        (alookup [(("a":String), (1:ℝ))] p.1).isSome) ∧
      (∀ p ∈ (microcluster.init [("a", 3)] 0 1 none none).tf,
        (alookup [(("a":String), (1:ℝ))] p.1).isSome)) ∧
    ((∃ d, tfidf_cosine_distance (microcluster.init [("a", 2)] 0 1 none none)
        (microcluster.init [("a", 3)] 0 1 none none) [("a", 1)] = some d ∧
        0 ≤ d ∧ d ≤ 1) ∧
      ((distLoopA [("a", 1)] (microcluster.init [("a", 2)] 0 1 none none).tf
          (microcluster.init [("a", 2)] 0 1 none none).tf).2 ≠ 0 →
        tfidf_cosine_distance (microcluster.init [("a", 2)] 0 1 none none)
          (microcluster.init [("a", 2)] 0 1 none none) [("a", 1)] = some 0) ∧
      tfidf_cosine_distance (microcluster.init [("a", 2)] 0 1 none none)
          (microcluster.init [("a", 3)] 0 1 none none) [("a", 1)]
        = tfidf_cosine_distance (microcluster.init [("a", 3)] 0 1 none none)
          (microcluster.init [("a", 2)] 0 1 none none) [("a", 1)]) := by
  refine ⟨⟨?_, ?_, ?_, ?_, ?_, ?_⟩, ?_⟩
  · intro p hp; simp [microcluster.init] at hp; subst hp; norm_num
  · intro p hp; simp [microcluster.init] at hp; subst hp; norm_num
  · simp [microcluster.init]
  · simp [microcluster.init]
  · intro p hp; simp [microcluster.init] at hp; subst hp; simp [alookup]
  · intro p hp; simp [microcluster.init] at hp; subst hp; simp [alookup]
  · exact tfidf_bounds_self_symm (microcluster.init [("a", 2)] 0 1 none none)
      (microcluster.init [("a", 3)] 0 1 none none) [("a", 1)]
      (by intro p hp; simp [microcluster.init] at hp; subst hp; norm_num)
      (by intro p hp; simp [microcluster.init] at hp; subst hp; norm_num)
      (by simp [microcluster.init])
      (by simp [microcluster.init])
      (by intro p hp; simp [microcluster.init] at hp; subst hp; simp [alookup])
      (by intro p hp; simp [microcluster.init] at hp; subst hp; simp [alookup])

theorem updateMacroClusters_of_up_to_date (s : TextClust)
    (h : s.up_to_date = true) : updateMacroClusters s = some s := by
  simp [updateMacroClusters, h]

/-! ## Claim C10 -/

/-- Claim C10: in a macro-level assignment query the result is guarded by
the truthiness of the nearest cluster id (`... if assignment else None`).
When the nearest weight-qualifying micro-cluster is cluster 0 (a falsy id
in Python), `get_assignment` returns `none` instead of that cluster's
macro index; for every nearest cluster with a nonzero id the macro index
stored in `microToMacro` is returned. -/
theorem macro_assignment_zero_id_guard (s s2 : TextClust)
    (x : List (String × ℝ)) (hx : x ≠ [])
    (hup : updateMacroClusters (updateweights s) = some s2) :
    (∀ dv, assignClosest (updateweights s) x = some (dv, some 0) →
      get_assignment s x Level.macro_level = some (s2, none)) ∧
    (∀ dv i m2m mi, assignClosest (updateweights s) x = some (dv, some i) →
      i ≠ 0 → s2.microToMacro = some m2m → alookup m2m i = some mi →
      get_assignment s x Level.macro_level = some (s2, some mi)) := by
  cases x with
  | nil => exact absurd rfl hx
  | cons hd tl =>
      constructor
      · intro dv hclosest
        simp only [get_assignment, hclosest, hup]
        simp
      · intro dv i m2m mi hclosest hi hm2m hmi
        simp only [get_assignment, hclosest, hup]
        rw [if_neg hi]
        simp only [hm2m, hmi]

/-- Witness for C10: a state with a single weight-qualifying cluster of
id 0 and a fresh (valid) macro assignment. -/
theorem macro_assignment_zero_id_guard_witness :
    (([(("a":String), (2:ℝ))] ≠ []) ∧
      updateMacroClusters (updateweights
        { TextClust.init 0.3 0 100 true false distances.tfidf_cosine
            distances.tfidf_cosine 3 0 false true 1 with
          micro_clusters := [(0, microcluster.init [("a", 2)] 0 2 none (some 0))],
          clusterId := 1, up_to_date := true, microToMacro := some [(0, 0)] })
        = some (updateweights
        { TextClust.init 0.3 0 100 true false distances.tfidf_cosine
            distances.tfidf_cosine 3 0 false true 1 with
          micro_clusters := [(0, microcluster.init [("a", 2)] 0 2 none (some 0))],
          clusterId := 1, up_to_date := true, microToMacro := some [(0, 0)] })) ∧
    ((∀ dv, assignClosest (updateweights
        { TextClust.init 0.3 0 100 true false distances.tfidf_cosine
            distances.tfidf_cosine 3 0 false true 1 with
          micro_clusters := [(0, microcluster.init [("a", 2)] 0 2 none (some 0))],
          clusterId := 1, up_to_date := true, microToMacro := some [(0, 0)] })
        [("a", 2)] = some (dv, some 0) →
      get_assignment
        { TextClust.init 0.3 0 100 true false distances.tfidf_cosine
            distances.tfidf_cosine 3 0 false true 1 with
          micro_clusters := [(0, microcluster.init [("a", 2)] 0 2 none (some 0))],
          clusterId := 1, up_to_date := true, microToMacro := some [(0, 0)] }
        [("a", 2)] Level.macro_level = some (updateweights
        { TextClust.init 0.3 0 100 true false distances.tfidf_cosine
            distances.tfidf_cosine 3 0 false true 1 with
          micro_clusters := [(0, microcluster.init [("a", 2)] 0 2 none (some 0))],
          clusterId := 1, up_to_date := true, microToMacro := some [(0, 0)] },
        none)) ∧
      (∀ dv i m2m mi, assignClosest (updateweights
        { TextClust.init 0.3 0 100 true false distances.tfidf_cosine
            distances.tfidf_cosine 3 0 false true 1 with
          micro_clusters := [(0, microcluster.init [("a", 2)] 0 2 none (some 0))],
          clusterId := 1, up_to_date := true, microToMacro := some [(0, 0)] })
        [("a", 2)] = some (dv, some i) →
      i ≠ 0 →
      (updateweights
        { TextClust.init 0.3 0 100 true false distances.tfidf_cosine
            distances.tfidf_cosine 3 0 false true 1 with
          micro_clusters := [(0, microcluster.init [("a", 2)] 0 2 none (some 0))],
          clusterId := 1, up_to_date := true, microToMacro := some [(0, 0)] }).microToMacro
        = some m2m →
      alookup m2m i = some mi →
      get_assignment
        { TextClust.init 0.3 0 100 true false distances.tfidf_cosine
            distances.tfidf_cosine 3 0 false true 1 with
          micro_clusters := [(0, microcluster.init [("a", 2)] 0 2 none (some 0))],
          clusterId := 1, up_to_date := true, microToMacro := some [(0, 0)] }
        [("a", 2)] Level.macro_level = some (updateweights
        { TextClust.init 0.3 0 100 true false distances.tfidf_cosine
            distances.tfidf_cosine 3 0 false true 1 with
          micro_clusters := [(0, microcluster.init [("a", 2)] 0 2 none (some 0))],
          clusterId := 1, up_to_date := true, microToMacro := some [(0, 0)] },
        some mi))) := by
  refine ⟨⟨by simp, updateMacroClusters_of_up_to_date _ rfl⟩, ?_⟩
  exact macro_assignment_zero_id_guard
    { TextClust.init 0.3 0 100 true false distances.tfidf_cosine
        distances.tfidf_cosine 3 0 false true 1 with
      micro_clusters := [(0, microcluster.init [("a", 2)] 0 2 none (some 0))],
      clusterId := 1, up_to_date := true, microToMacro := some [(0, 0)] }
    (updateweights
      { TextClust.init 0.3 0 100 true false distances.tfidf_cosine
          distances.tfidf_cosine 3 0 false true 1 with
        micro_clusters := [(0, microcluster.init [("a", 2)] 0 2 none (some 0))],
        clusterId := 1, up_to_date := true, microToMacro := some [(0, 0)] })
    [("a", 2)] (by simp) (updateMacroClusters_of_up_to_date _ rfl)

theorem str_ab : (("a":String) = "b") = False := by simp

theorem str_ac : (("a":String) = "c") = False := by simp

theorem str_bc : (("b":String) = "c") = False := by simp

theorem str_ba : (("b":String) = "a") = False := by simp

theorem str_ca : (("c":String) = "a") = False := by simp

theorem str_cb : (("c":String) = "b") = False := by simp

theorem str_xy : (("x":String) = "y") = False := by simp

theorem str_yx : (("y":String) = "x") = False := by simp

theorem sqrt_two_ne_zero : Real.sqrt 2 ≠ 0 :=
  Real.sqrt_ne_zero'.mpr (by norm_num)

theorem sqrt_two_mul_self : Real.sqrt 2 * Real.sqrt 2 = 2 :=
  Real.mul_self_sqrt (by norm_num)

/-! ## Claim C4 -/

/-- Claim C4: starting from an empty engine with merge radius 0.9,
logical-clock fading, decay rate 0 and `tgap = 100`, ingesting
`{"a":1,"b":1}`, then `{"a":1,"b":1,"c":1}`, then `{"x":1,"y":1}` yields
exactly 2 micro-clusters: observation 2 merges into the cluster created by
observation 1 (still exactly one cluster, id 0, afterwards), which ends
with `observation_count = 2` and empty `merged_ids`, and observation 3
creates a second cluster (id 1) with `observation_count = 1`. -/
theorem end_to_end_scenario :
    ∃ s1 s2 s3 : TextClust,
      learn_one (TextClust.init 0.9 0 100 true false distances.tfidf_cosine
        distances.tfidf_cosine 3 0 false true 1) [("a", 1), ("b", 1)] 0
        = some (s1, some 0) ∧
      s1.micro_clusters.map Prod.fst = [0] ∧
      learn_one s1 [("a", 1), ("b", 1), ("c", 1)] 0 = some (s2, some 0) ∧
      s2.micro_clusters.map Prod.fst = [0] ∧
      learn_one s2 [("x", 1), ("y", 1)] 0 = some (s3, some 1) ∧
      s3.micro_clusters.map Prod.fst = [0, 1] ∧
      (∃ c0, alookup s3.micro_clusters 0 = some c0 ∧ c0.n = 2 ∧
        c0.merged_ids = []) ∧
      (∃ c1, alookup s3.micro_clusters 1 = some c1 ∧ c1.n = 1) := by
  refine ⟨{ TextClust.init 0.9 0 100 true false distances.tfidf_cosine
        distances.tfidf_cosine 3 0 false true 1 with
      t := 1,
      micro_clusters := [(0, microcluster.init [("a", 1), ("b", 1)] 1 1 none
        (some 0))],
      clusterId := 1, dist_mean := 1, n := 2 },
    { TextClust.init 0.9 0 100 true false distances.tfidf_cosine
        distances.tfidf_cosine 3 0 false true 1 with
      t := 2,
      micro_clusters := [(0, ⟨some 0, 2, 2, [], 0, 0, none, 2, []⟩)],
      clusterId := 1, dist_mean := 1, num_merged_obs := 1, n := 3 },
    { TextClust.init 0.9 0 100 true false distances.tfidf_cosine
        distances.tfidf_cosine 3 0 false true 1 with
      t := 3,
      micro_clusters := [(0, ⟨some 0, 2, 2, [], 0, 0, none, 2, []⟩),
        (1, microcluster.init [("x", 1), ("y", 1)] 3 1 none (some 1))],
      clusterId := 2, dist_mean := 2, num_merged_obs := 1, n := 4 },
    ?_, by simp, ?_, by simp, ?_, by simp,
    ⟨⟨some 0, 2, 2, [], 0, 0, none, 2, []⟩, by simp [alookup], rfl, rfl⟩,
    ⟨microcluster.init [("x", 1), ("y", 1)] 3 1 none (some 1),
      by simp [alookup], rfl⟩⟩
  · norm_num [learn_one, learn_core, get_closest_mc, closestScan,
      calculateIDF, countKeys, microcluster.init, TextClust.init, aset,
      alookup, distances.dist, tfidf_cosine_distance, distLoopA, distLoopB,
      microcluster.merge, microcluster.fade, fadeTerms, mergeTF,
      Real.rpow_zero, Real.log_one, Real.sqrt_zero]
  · norm_num [learn_one, learn_core, get_closest_mc, closestScan,
      calculateIDF, countKeys, microcluster.init, TextClust.init, aset,
      alookup, distances.dist, tfidf_cosine_distance, distLoopA, distLoopB,
      microcluster.merge, microcluster.fade, fadeTerms, mergeTF,
      round10_zero, sqrt_two_ne_zero, sqrt_two_mul_self,
      str_ab, str_ac, str_bc, str_ba, str_ca, str_cb, str_xy, str_yx,
      Real.rpow_zero, Real.log_one, Real.sqrt_zero]
  · norm_num [learn_one, learn_core, get_closest_mc, closestScan,
      calculateIDF, countKeys, microcluster.init, TextClust.init, aset,
      alookup, distances.dist, tfidf_cosine_distance, distLoopA, distLoopB,
      microcluster.merge, microcluster.fade, fadeTerms, mergeTF,
      round10_zero, sqrt_two_ne_zero, sqrt_two_mul_self,
      str_ab, str_ac, str_bc, str_ba, str_ca, str_cb, str_xy, str_yx,
      Real.rpow_zero, Real.log_one, Real.sqrt_zero]
